import Mathlib

/-!
Verification development for the shareholder-agreement analysis pipeline
(`shareholder_agent_dify.py`).

The development shallowly embeds the row-level orchestration pipeline of the
program: document normalization (`read_word_doc`), per-row request building,
the blocking API call (modelled as a function from the request payload to
either a decoded JSON body or a transport-failure description), fenced-block
response extraction, and per-document output-table assembly (`main`'s inner
per-document loop).

Python strings are modelled as `List Char` (wrapped in `String` at API
boundaries); Python values decoded from JSON are modelled by the `Json`
type below; machine-level I/O (file reading, HTTP transport, logging) is
external to the embedding and appears only as explicit inputs.
-/

/-! ## Document normalization (`read_word_doc`, source lines 62-88)

The docx reading itself (`Document(doc_path)`) is external I/O; the
embedding takes the ordered list of paragraph texts (`para.text` values)
and models the cleaning loop and final join/collapse faithfully.
-/

/-- Characters stripped by Python `str.strip()` with no arguments, restricted
to the ASCII whitespace characters (space, tab, newline, carriage return,
vertical tab, form feed).  Paragraph texts and fenced-block contents in this
development only involve these. -/
def isPySpace (c : Char) : Bool :=
  c = ' ' || c = '\t' || c = '\n' || c = '\r' || c = '\x0b' || c = '\x0c'

/-- Python `str.strip()`: drop leading and trailing whitespace. -/
def pyStrip (l : List Char) : List Char :=
  ((l.dropWhile isPySpace).reverse.dropWhile isPySpace).reverse

/-- The character class `[一二三四五六七八九十]` of the heading regex. -/
def isCnNumeral (c : Char) : Bool :=
  c = '一' || c = '二' || c = '三' || c = '四' || c = '五' ||
  c = '六' || c = '七' || c = '八' || c = '九' || c = '十'

/-- First character being `条`, the fixed suffix of the heading pattern. -/
def headIsTiao : List Char → Bool
  | c :: _ => c = '条'
  | [] => false

/-- Python `re.match(r'第[一二三四五六七八九十]+条', text)` viewed as a
Boolean: the text starts with `第`, then one or more numeral characters,
then `条`.  Because `条` is not itself in the numeral class, the greedy
`+` with backtracking succeeds exactly when the maximal numeral run is
nonempty and is followed by `条`. -/
def headingMatch : List Char → Bool
  | [] => false
  | c :: rest =>
    c = '第' && !(rest.takeWhile isCnNumeral).isEmpty &&
      headIsTiao (rest.dropWhile isCnNumeral)

/-- Three leading period characters, the lookahead used by `hasDots`. -/
def next3Dots : List Char → Bool
  | c1 :: c2 :: c3 :: _ => c1 = '.' && c2 = '.' && c3 = '.'
  | _ => false

/-- Python `re.search(r'\.{4,}', text)` viewed as a Boolean: the text
contains four consecutive period characters (a run of four or more dots
exists exactly when some position starts four consecutive dots). -/
def hasDots : List Char → Bool
  | [] => false
  | c :: rest => (c = '.' && next3Dots rest) || hasDots rest

/-- Python `text.replace('\t', ' ')`. -/
def tabToSpace (l : List Char) : List Char :=
  l.map fun c => if c = '\t' then ' ' else c

/-- The paragraph loop of `read_word_doc`.  The Python loop appends
`text + '\n'` to `full_text`; here the accumulator is replaced by two
state bits that are all the loop ever reads from it:
`started` models `full_text` being nonempty and `lastEmpty` models
`full_text[-1] == '\n'` (the last appended element came from an empty
`text`).  The result is the list of appended line texts (without the
trailing `'\n'`, which `joinNL` reattaches). -/
def keepGo (lastEmpty started : Bool) : List (List Char) → List (List Char)
  | [] => []
  | p :: ps =>
    let t := pyStrip p
    if headingMatch t || hasDots t then keepGo lastEmpty started ps
    else if t.isEmpty && started && lastEmpty then keepGo lastEmpty started ps
    else tabToSpace t :: keepGo t.isEmpty true ps

/-- The kept lines of the cleaning loop, starting from an empty `full_text`. -/
def keepLines (paras : List (List Char)) : List (List Char) :=
  keepGo false false paras

/-- Python `''.join(full_text)` where each element of `full_text` is a kept
line text followed by `'\n'`. -/
def joinNL (lines : List (List Char)) : List Char :=
  (lines.map (fun l => l ++ ['\n'])).flatten

/-- Python `s.replace('\n\n', '\n')`: left-to-right, non-overlapping
replacement of each doubled newline by a single newline. -/
def replaceNN : List Char → List Char
  | [] => []
  | [c] => [c]
  | c1 :: c2 :: rest =>
    if c1 = '\n' ∧ c2 = '\n' then '\n' :: replaceNN rest
    else c1 :: replaceNN (c2 :: rest)

/-- Model of `read_word_doc` (source lines 62-85) on the document's paragraph texts:
clean each paragraph, join the kept lines with newlines, and collapse
doubled newlines.  The surrounding `try/except` only concerns the external
docx read and is outside the embedding. -/
def read_word_doc (paras : List String) : String :=
  String.mk (replaceNN (joinNL (keepLines (paras.map String.data))))

/-- Splitting a text into its lines at `'\n'` terminators, with Python
`str.splitlines` semantics restricted to `'\n'` (no empty line after a
trailing terminator; the empty text has no lines).  Used to re-feed a
normalized document through the normalizer as a paragraph sequence. -/
def splitNLGo (cur : List Char) : List Char → List (List Char)
  | [] => [cur.reverse]
  | c :: rest =>
    if c = '\n' then
      match rest with
      | [] => [cur.reverse]
      | _ :: _ => cur.reverse :: splitNLGo [] rest
    else splitNLGo (c :: cur) rest

/-- Line decomposition of a text (see `splitNLGo`). -/
def splitLines : List Char → List (List Char)
  | [] => []
  | c :: rest => splitNLGo [] (c :: rest)

/-! ## JSON values

Python values decoded by `json.loads` (and passed around between the Excel
row, `json.dumps`, and the response-extraction code) are modelled by the
mutually inductive `Json`/`JsonArr`/`JsonObj`.  Numbers keep their source
lexeme (this development never computes with numeric values); objects keep
their member list in source order, and lookups take the last occurrence of
a key, matching Python dict construction where a later duplicate key
overwrites an earlier one. -/

mutual
inductive Json where
  | null
  | bool (b : Bool)
  | num (lexeme : String)
  | str (s : String)
  | arr (elems : JsonArr)
  | obj (members : JsonObj)
inductive JsonArr where
  | nil
  | cons (hd : Json) (tl : JsonArr)
inductive JsonObj where
  | nil
  | cons (key : String) (val : Json) (tl : JsonObj)
end

deriving instance DecidableEq for Json

/-- Value of a key in a decoded JSON object: the value of the key's last
occurrence, as in a Python dict built by `json.loads`. -/
def JsonObj.find : JsonObj → String → Option Json
  | .nil, _ => none
  | .cons k v tl, key =>
    match JsonObj.find tl key with
    | some r => some r
    | none => if k == key then some v else none

/-- Python `result.get(key, default)` on a decoded JSON object: the stored
value when the key is present (even when that value is `None`), the default
otherwise. -/
def JsonObj.getD (o : JsonObj) (key : String) (default : Json) : Json :=
  match o.find key with
  | some v => v
  | none => default

/-- Python type name of a decoded JSON value, as it appears in Python error
messages such as `'list' object has no attribute 'get'`.  Numeric lexemes
are reported as `int` (the modelled error text is never inspected beyond
being the failure's description). -/
def pyTypeName : Json → String
  | .null => "NoneType"
  | .bool _ => "bool"
  | .num _ => "int"
  | .str _ => "str"
  | .arr _ => "list"
  | .obj _ => "dict"

/-! ## `json.loads` (used on the fenced block content, source line 141)

A recursive-descent parser over the character list, with an explicit fuel
argument for termination; every recursive step consumes at least one
character, so `length + 1` fuel never runs out.  It follows Python's
`json.loads` in strict mode: JSON whitespace, `null`/`true`/`false` and the
non-standard `NaN`/`Infinity`/`-Infinity` literals, strings with the
standard escapes (including `\uXXXX`) and no raw control characters,
numbers without leading zeros, arrays and objects.  Error strings model the
corresponding Python error messages. -/

/-- JSON whitespace skipped between tokens (space, tab, newline, return). -/
def skipWs : List Char → List Char
  | c :: rest =>
    if c = ' ' || c = '\t' || c = '\n' || c = '\r' then skipWs rest
    else c :: rest
  | [] => []

/-- Hexadecimal digit value for `\uXXXX` escapes, over the character's
code point (digits, then lowercase, then uppercase letters). -/
def hexVal (c : Char) : Option Nat :=
  let n := c.toNat
  if 48 ≤ n ∧ n ≤ 57 then some (n - 48)
  else if 97 ≤ n ∧ n ≤ 102 then some (n - 87)
  else if 65 ≤ n ∧ n ≤ 70 then some (n - 55)
  else none

/-- String body parser: characters after the opening quote, up to and
including the closing quote.  Returns the decoded characters (reversed
accumulator) and the remaining input. -/
def parseStrBody (acc : List Char) : List Char → Except String (String × List Char)
  | [] => .error "Unterminated string starting at"
  | '"' :: rest => .ok (String.mk acc.reverse, rest)
  | '\\' :: esc :: rest =>
    if esc = '"' then parseStrBody ('"' :: acc) rest
    else if esc = '\\' then parseStrBody ('\\' :: acc) rest
    else if esc = '/' then parseStrBody ('/' :: acc) rest
    else if esc = 'b' then parseStrBody ('\x08' :: acc) rest
    else if esc = 'f' then parseStrBody ('\x0c' :: acc) rest
    else if esc = 'n' then parseStrBody ('\n' :: acc) rest
    else if esc = 'r' then parseStrBody ('\r' :: acc) rest
    else if esc = 't' then parseStrBody ('\t' :: acc) rest
    else if esc = 'u' then
      match rest with
      | h1 :: h2 :: h3 :: h4 :: rest4 =>
        match hexVal h1, hexVal h2, hexVal h3, hexVal h4 with
        | some a, some b, some c, some d =>
          parseStrBody (Char.ofNat (((a * 16 + b) * 16 + c) * 16 + d) :: acc) rest4
        | _, _, _, _ => .error "Invalid \\uXXXX escape"
      | _ => .error "Invalid \\uXXXX escape"
    else .error "Invalid \\escape"
  | ['\\'] => .error "Unterminated string starting at"
  | c :: rest =>
    if c.toNat < 0x20 then .error "Invalid control character"
    else parseStrBody (c :: acc) rest

/-- Digit run splitter for number lexemes. -/
def spanDigits (l : List Char) : List Char × List Char :=
  (l.takeWhile Char.isDigit, l.dropWhile Char.isDigit)

/-- Number lexeme parser, starting at a character that may begin a number
(after an optional leading `-` already checked by the caller to start a
digit or be part of `-Infinity`).  Accepts `int [frac] [exp]` with no
leading zeros, as Python's JSON number grammar does, and returns the
lexeme together with the remaining input. -/
def parseNum (l : List Char) : Except String (String × List Char) :=
  let (neg, afterSign) :=
    match l with
    | '-' :: rest => (['-'], rest)
    | _ => (([] : List Char), l)
  match afterSign with
  | [] => .error "Expecting value"
  | c :: _ =>
    if !c.isDigit then .error "Expecting value"
    else
      let (intPart, rest1) := spanDigits afterSign
      if intPart.length > 1 && c = '0' then .error "Expecting value"
      else
        let (fracPart, rest2) :=
          match rest1 with
          | '.' :: afterDot =>
            let (ds, r) := spanDigits afterDot
            if ds.isEmpty then (([] : List Char), rest1) else ('.' :: ds, r)
          | _ => (([] : List Char), rest1)
        if fracPart.isEmpty && (match rest1 with | '.' :: _ => true | _ => false) then
          .error "Expecting value"
        else
          let (expPart, rest3) :=
            match rest2 with
            | e :: afterE =>
              if e = 'e' || e = 'E' then
                let (sign, afterES) :=
                  match afterE with
                  | s :: r => if s = '+' || s = '-' then ([s], r) else (([] : List Char), afterE)
                  | [] => (([] : List Char), afterE)
                let (ds, r) := spanDigits afterES
                if ds.isEmpty then (([] : List Char), rest2) else (e :: (sign ++ ds), r)
              else (([] : List Char), rest2)
            | [] => (([] : List Char), rest2)
          .ok (String.mk (neg ++ intPart ++ fracPart ++ expPart), rest3)

mutual
/-- Value parser; the input is assumed to start at a (possibly
whitespace-preceded) value. -/
def parseVal (fuel : Nat) (cs : List Char) : Except String (Json × List Char) :=
  match fuel with
  | 0 => .error "Expecting value"
  | fuel + 1 =>
    match skipWs cs with
    | [] => .error "Expecting value"
    | c :: rest =>
      if c = '"' then
        match parseStrBody [] rest with
        | .ok (s, rest2) => .ok (.str s, rest2)
        | .error e => .error e
      else if c = '\x7b' then parseMembers fuel (c :: rest) true .nil
      else if c = '[' then parseItems fuel (c :: rest) true .nil
      else if c = 'n' then
        match rest with
        | 'u' :: 'l' :: 'l' :: rest2 => .ok (.null, rest2)
        | _ => .error "Expecting value"
      else if c = 't' then
        match rest with
        | 'r' :: 'u' :: 'e' :: rest2 => .ok (.bool true, rest2)
        | _ => .error "Expecting value"
      else if c = 'f' then
        match rest with
        | 'a' :: 'l' :: 's' :: 'e' :: rest2 => .ok (.bool false, rest2)
        | _ => .error "Expecting value"
      else if c = 'N' then
        match rest with
        | 'a' :: 'N' :: rest2 => .ok (.num "NaN", rest2)
        | _ => .error "Expecting value"
      else if c = 'I' then
        match rest with
        | 'n' :: 'f' :: 'i' :: 'n' :: 'i' :: 't' :: 'y' :: rest2 =>
          .ok (.num "Infinity", rest2)
        | _ => .error "Expecting value"
      else if c = '-' &&
          (match rest with | 'I' :: _ => true | _ => false) then
        match rest with
        | 'I' :: 'n' :: 'f' :: 'i' :: 'n' :: 'i' :: 't' :: 'y' :: rest2 =>
          .ok (.num "-Infinity", rest2)
        | _ => .error "Expecting value"
      else
        match parseNum (c :: rest) with
        | .ok (lex, rest2) => .ok (.num lex, rest2)
        | .error e => .error e

/-- Array parser.  `first = true` means the input still starts at the `[`
(or, on later iterations with `first = false`, at the `,`); the accumulator
holds the elements parsed so far in reverse. -/
def parseItems (fuel : Nat) (cs : List Char) (first : Bool) (acc : JsonArr) :
    Except String (Json × List Char) :=
  match fuel with
  | 0 => .error "Expecting value"
  | fuel + 1 =>
    match cs with
    | [] => .error "Expecting ',' delimiter"
    | _ :: afterDelim =>
      match skipWs afterDelim with
      | ']' :: rest2 =>
        if first then .ok (.arr (revArr acc .nil), rest2)
        else .error "Expecting value"
      | other =>
        match parseVal fuel other with
        | .error e => .error e
        | .ok (v, rest2) =>
          match skipWs rest2 with
          | ']' :: rest3 => .ok (.arr (revArr (.cons v acc) .nil), rest3)
          | ',' :: rest3 => parseItems fuel (',' :: rest3) false (.cons v acc)
          | _ => .error "Expecting ',' delimiter"

/-- Object parser, in the same style as `parseItems`. -/
def parseMembers (fuel : Nat) (cs : List Char) (first : Bool) (acc : JsonObj) :
    Except String (Json × List Char) :=
  match fuel with
  | 0 => .error "Expecting value"
  | fuel + 1 =>
    match cs with
    | [] => .error "Expecting ',' delimiter"
    | _ :: afterDelim =>
      match skipWs afterDelim with
      | '\x7d' :: rest2 =>
        if first then .ok (.obj (revObj acc .nil), rest2)
        else .error "Expecting property name enclosed in double quotes"
      | '"' :: rest2 =>
        match parseStrBody [] rest2 with
        | .error e => .error e
        | .ok (key, rest3) =>
          match skipWs rest3 with
          | ':' :: rest4 =>
            match parseVal fuel rest4 with
            | .error e => .error e
            | .ok (v, rest5) =>
              match skipWs rest5 with
              | '\x7d' :: rest6 => .ok (.obj (revObj (.cons key v acc) .nil), rest6)
              | ',' :: rest6 => parseMembers fuel (',' :: rest6) false (.cons key v acc)
              | _ => .error "Expecting ',' delimiter"
          | _ => .error "Expecting ':' delimiter"
      | _ => .error "Expecting property name enclosed in double quotes"

/-- Reversal of an accumulated array (append-style, usable in the mutual
block). -/
def revArr : JsonArr → JsonArr → JsonArr
  | .nil, out => out
  | .cons h t, out => revArr t (.cons h out)

/-- Reversal of an accumulated object. -/
def revObj : JsonObj → JsonObj → JsonObj
  | .nil, out => out
  | .cons k v t, out => revObj t (.cons k v out)
end

/-- Python `json.loads` on a character list: parse one value and require
only whitespace to remain. -/
def jsonLoads (cs : List Char) : Except String Json :=
  match parseVal (cs.length + 1) cs with
  | .error e => .error e
  | .ok (v, rest) =>
    match skipWs rest with
    | [] => .ok v
    | _ => .error "Extra data"

/-! ## `json.dumps(..., ensure_ascii=False, indent=2)` (source line 100)

With a non-`None` indent, Python renders containers with one item per line,
each line prefixed by `level * indent` spaces, the closing bracket on its
own line at the enclosing level, item separator `,` and key separator
`: `; `ensure_ascii=False` leaves every character at or above `0x20`
other than `"` and `\` unescaped, while control characters use the short
escapes or `\u00xx`. -/

/-- Lowercase hexadecimal digit, for `\u00xx` escapes of control
characters. -/
def hexDigit (n : Nat) : Char :=
  if n < 10 then Char.ofNat ('0'.toNat + n)
  else Char.ofNat ('a'.toNat + (n - 10))

/-- Escape of one character inside a dumped JSON string
(`ensure_ascii=False`). -/
def escChar (c : Char) : List Char :=
  if c = '"' then ['\\', '"']
  else if c = '\\' then ['\\', '\\']
  else if c = '\n' then ['\\', 'n']
  else if c = '\t' then ['\\', 't']
  else if c = '\r' then ['\\', 'r']
  else if c = '\x08' then ['\\', 'b']
  else if c = '\x0c' then ['\\', 'f']
  else if c.toNat < 0x20 then
    ['\\', 'u', '0', '0', hexDigit (c.toNat / 16), hexDigit (c.toNat % 16)]
  else [c]

/-- Escaped body of a dumped JSON string. -/
def escStr (s : String) : String :=
  String.mk ((s.data.map escChar).flatten)

/-- Indentation prefix at a nesting level (two spaces per level). -/
def indentSp (level : Nat) : String :=
  String.mk (List.replicate (level * 2) ' ')

mutual
/-- Rendering of `json.dumps(v, ensure_ascii=False, indent=2)` at a nesting level. -/
def dumpVal (level : Nat) : Json → String
  | .null => "null"
  | .bool true => "true"
  | .bool false => "false"
  | .num lex => lex
  | .str s => "\"" ++ escStr s ++ "\""
  | .arr a =>
    match a with
    | .nil => "[]"
    | .cons _ _ =>
      "[\n" ++ indentSp (level + 1) ++ dumpArr (level + 1) a ++
        "\n" ++ indentSp level ++ "]"
  | .obj o =>
    match o with
    | .nil => "\x7b\x7d"
    | .cons _ _ _ =>
      "\x7b\n" ++ indentSp (level + 1) ++ dumpObj (level + 1) o ++
        "\n" ++ indentSp level ++ "\x7d"

/-- Comma-and-newline separated array items at a nesting level. -/
def dumpArr (level : Nat) : JsonArr → String
  | .nil => ""
  | .cons h .nil => dumpVal level h
  | .cons h t =>
    dumpVal level h ++ ",\n" ++ indentSp level ++ dumpArr level t

/-- Comma-and-newline separated object members at a nesting level. -/
def dumpObj (level : Nat) : JsonObj → String
  | .nil => ""
  | .cons k v .nil => "\"" ++ escStr k ++ "\": " ++ dumpVal level v
  | .cons k v t =>
    "\"" ++ escStr k ++ "\": " ++ dumpVal level v ++ ",\n" ++
      indentSp level ++ dumpObj level t
end

/-! ## `process_excel_row` (source lines 91-155)

One spreadsheet row is a pandas `Series`, modelled as the association list
of its labelled cells; `row[key]` on a missing label raises a `KeyError`
whose `str` is the quoted key.  The HTTP call
(`requests.post(...)`, `response.raise_for_status()`, `response.json()`)
is modelled as a function `api` from the request payload to either the
decoded JSON response body or the description of a raised transport
failure (connection error, timeout, non-2xx status, undecodable body);
`process_excel_row` performs exactly one such call per invocation.  Error
strings model the `str` of the corresponding Python exception. -/

/-- One spreadsheet row: labelled cell values in column order. -/
abbrev Row := List (String × Json)

/-- Label lookup in a row (first occurrence; the modelled tables have
distinct column labels). -/
def rowGet (row : Row) (key : String) : Option Json :=
  (row.find? (fun kv => kv.fst == key)).map (fun kv => kv.snd)

/-- Description of a Python `KeyError` for a missing label. -/
def keyErrMsg (k : String) : String := "'" ++ k ++ "'"

/-- Python `row[key]`: the cell value, or a `KeyError` failure. -/
def seriesItem (row : Row) (key : String) : Except String Json :=
  match rowGet row key with
  | some v => .ok v
  | none => .error (keyErrMsg key)

/-- Lines 95-100: `json.dumps(query_data, ensure_ascii=False, indent=2)`
of the three-field query dict, in insertion order. -/
def queryStr (v1 v2 v3 : Json) : String :=
  dumpVal 0 (Json.obj (.cons "条款类别" v1
    (.cons "条款/内容" v2 (.cons "填写说明" v3 .nil))))

/-- Lines 107-114: the request payload. -/
def buildPayload (query_json : String) (file_content : String) : Json :=
  Json.obj (.cons "response_mode" (.str "blocking")
    (.cons "user" (.str "haha-shareholder")
      (.cons "inputs" (Json.obj (.cons "Query" (.str query_json)
        (.cons "File" (.str file_content) .nil))) .nil)))

/-- Line 120: the `timeout=600` argument of the blocking `requests.post`
call (transport behaviour itself is external to the embedding). -/
def requestTimeoutSeconds : Nat := 600

/-- Python subscript `value[key]` on a decoded JSON value: a dict lookup,
a `KeyError` on a missing key, or a `TypeError` on a non-dict. -/
def getItem (v : Json) (key : String) : Except String Json :=
  match v with
  | .obj kvs =>
    match kvs.find key with
    | some x => .ok x
    | none => .error (keyErrMsg key)
  | .str _ => .error "string indices must be integers"
  | .arr _ => .error "list indices must be integers or slices, not str"
  | other => .error ("'" ++ pyTypeName other ++ "' object is not subscriptable")

/-- Line 136: `result_json['data']['outputs']['Answer']`, which must then
be a string for `re.search` (otherwise a `TypeError`). -/
def getAnswerStr (resp : Json) : Except String String := do
  let d ← getItem resp "data"
  let o ← getItem d "outputs"
  let a ← getItem o "Answer"
  match a with
  | .str s => .ok s
  | _ => .error "expected string or bytes-like object"

/-- Index of the first occurrence of a pattern as a contiguous substring. -/
def subIndex (pat : List Char) : List Char → Option Nat
  | [] => if pat.isEmpty then some 0 else none
  | c :: rest =>
    if pat.isPrefixOf (c :: rest) then some 0
    else (subIndex pat rest).map (fun n => n + 1)

/-- Line 137: `re.search(r'```json(.*?)```', answer, re.DOTALL)`, returning
`group(1)`.  The leftmost match starts at the first occurrence of the
literal `` ```json ``; the non-greedy dot-all group then extends to the
first following occurrence of `` ``` ``.  When the first `` ```json `` has
no following `` ``` `` there is no match at all: a later starting position
would need a closing occurrence even further right. -/
def extractFenced (s : List Char) : Option (List Char) :=
  match subIndex "```json".data s with
  | none => none
  | some i =>
    let rest := s.drop (i + 7)
    match subIndex "```".data rest with
    | none => none
    | some j => some (rest.take j)

/-- Description of the `AttributeError` raised by `result.get(...)` when
the decoded fenced block is not a JSON object. -/
def attrErrMsg (v : Json) : String :=
  "'" ++ pyTypeName v ++ "' object has no attribute 'get'"

/-- Sentinel stored in the three result fields of a failed row. -/
def failSentinel : String := "处理失败"

/-- Sentinel returned for a key absent from the decoded fenced block. -/
def notExtracted : String := "未提取"

/-- Body of the `try` block of `process_excel_row` (lines 93-147): the
three `row[...]` lookups in source order, the single API call on the built
payload, the `data.outputs.Answer` extraction, the fenced-block search
(`ValueError("未找到有效JSON数据")` when absent), `json.loads` of the
stripped group, and the three `result.get` reads with the `未提取`
default.  The first failure short-circuits with its description. -/
def processRowBody (row : Row) (file_content : String)
    (api : Json → Except String Json) : Except String (Json × Json × Json) := do
  let v1 ← seriesItem row "条款类别"
  let v2 ← seriesItem row "条款/内容"
  let v3 ← seriesItem row "填写说明"
  let result_json ← api (buildPayload (queryStr v1 v2 v3) file_content)
  let answer ← getAnswerStr result_json
  let content ←
    match extractFenced answer.data with
    | some g => Except.ok g
    | none => Except.error "未找到有效JSON数据"
  let result ← jsonLoads (pyStrip content)
  match result with
  | .obj kvs =>
    Except.ok (kvs.getD "概括总结" (.str notExtracted),
      kvs.getD "条款编号" (.str notExtracted),
      kvs.getD "条款原文" (.str notExtracted))
  | other => Except.error (attrErrMsg other)

/-- The per-row outcome record: the three result fields (values taken
verbatim from the decoded fenced block on success) and the error
description (empty on success). -/
structure AnalysisOutcome where
  summary : Json
  clauseId : Json
  clauseText : Json
  error : String
deriving DecidableEq

/-- The failure-shaped outcome of the `except` branch (lines 150-155). -/
def failureRecord (e : String) : AnalysisOutcome :=
  ⟨.str failSentinel, .str failSentinel, .str failSentinel, e⟩

/-- Model of `process_excel_row` (lines 91-155): run the body and convert any
failure into the failure-shaped record carrying the failure's
description. -/
def process_excel_row (row : Row) (file_content : String)
    (api : Json → Except String Json) : AnalysisOutcome :=
  match processRowBody row file_content api with
  | .ok (s, cid, ct) => ⟨s, cid, ct, ""⟩
  | .error e => failureRecord e

/-! ## Per-document processing (`main`, source lines 174-198)

`pd.read_excel` and `result_df.to_excel` are external I/O; the embedding
takes the decoded input table (column labels plus cell rows) and produces
the table that would be written, or the description of the exception that
the per-document `try` catches (which abandons the document, writing
nothing).

The output construction models `result_df = df.copy()` followed by
`result_df[['概括总结', '条款编号', '条款原文', 'error']] = ''` and the
per-row `result_df.at[idx, col] = result[col]` writes: an appended column
name that already exists in the input is overwritten in place, the others
are appended at the end in the listed order, and every row then receives
its outcome's four values in those columns. -/

/-- A decoded spreadsheet: column labels and rows of cell values. -/
structure Table where
  cols : List String
  rows : List (List Json)
deriving DecidableEq

/-- The four column names assigned at line 179, in source order. -/
def newCols : List String := ["概括总结", "条款编号", "条款原文", "error"]

/-- Output column list: original columns, then those of the four names not
already present, in order. -/
def outCols (cols : List String) : List String :=
  cols ++ newCols.filter (fun c => !cols.contains c)

/-- The row record (pandas `Series`) of one cell row. -/
def zipRow (cols : List String) (cells : List Json) : Row :=
  cols.zip cells

/-- Cell of the output row at a column: the outcome's value for the four
assigned names, the original cell otherwise. -/
def outputCell (row : Row) (o : AnalysisOutcome) (c : String) : Json :=
  if c = "概括总结" then o.summary
  else if c = "条款编号" then o.clauseId
  else if c = "条款原文" then o.clauseText
  else if c = "error" then .str o.error
  else (rowGet row c).getD (.str "")

/-- The written output table for an input table and its per-row
outcomes. -/
def buildOutputTable (cols : List String) (rows : List (List Json))
    (outcomes : List AnalysisOutcome) : Table :=
  { cols := outCols cols,
    rows := (rows.zip outcomes).map fun rc =>
      (outCols cols).map (outputCell (zipRow cols rc.fst) rc.snd) }

/-- The row loop of lines 182-193.  Before calling `process_excel_row`,
the trace log at line 183 evaluates `row['条款/内容']` outside the row-level
`try` of `process_excel_row` but inside the per-document `try`, so a
`KeyError` there aborts the whole document's processing. -/
def processRows (cols : List String) (file_content : String)
    (api : Json → Except String Json) :
    List (List Json) → Except String (List AnalysisOutcome)
  | [] => .ok []
  | cells :: rest => do
    let _ ← seriesItem (zipRow cols cells) "条款/内容"
    let outcome := process_excel_row (zipRow cols cells) file_content api
    let outcomes ← processRows cols file_content api rest
    .ok (outcome :: outcomes)

/-- One document's spreadsheet processing (the `try` body of lines
174-198): process every row in order, then assemble the output table.  An
`.error` is the caught per-document failure: the document is logged and
abandoned and no output file is written. -/
def runDocument (cols : List String) (rows : List (List Json))
    (file_content : String) (api : Json → Except String Json) :
    Except String Table := do
  let outcomes ← processRows cols file_content api rows
  .ok (buildOutputTable cols rows outcomes)

/-- No two consecutive empty lines in a kept-line list. -/
def noTwoEmptyB : List (List Char) → Bool
  | [] => true
  | [_] => true
  | l1 :: l2 :: rest => !(l1.isEmpty && l2.isEmpty) && noTwoEmptyB (l2 :: rest)

/-- Occurrence of two consecutive newline characters in a text. -/
def hasNN : List Char → Bool
  | [] => false
  | [_] => false
  | c1 :: c2 :: rest => (c1 = '\n' && c2 = '\n') || hasNN (c2 :: rest)

/-- String-valued JSON check, used to exhibit the C3 counterexample. -/
def isJsonString : Json → Bool
  | .str _ => true
  | _ => false

/-! ## Shared lemmas -/

/-- Unfolding of a successful row lookup inside the `Except` monad. -/
theorem seriesItem_ok {row : Row} {key : String} {v : Json}
    (h : rowGet row key = some v) : seriesItem row key = .ok v := by
  simp [seriesItem, h]

/-- Unfolding of a failed row lookup. -/
theorem seriesItem_err {row : Row} {key : String}
    (h : rowGet row key = none) : seriesItem row key = .error (keyErrMsg key) := by
  simp [seriesItem, h]

/-- The row loop succeeds and maps `process_excel_row` over the rows as
soon as every row has the `条款/内容` label read by the trace log. -/
theorem processRows_ok_map (cols : List String) (fc : String)
    (api : Json → Except String Json) :
    ∀ rows : List (List Json),
      (∀ cells ∈ rows, (rowGet (zipRow cols cells) "条款/内容").isSome = true) →
      processRows cols fc api rows =
        .ok (rows.map fun cells => process_excel_row (zipRow cols cells) fc api)
  | [], _ => rfl
  | cells :: rest, h => by
    obtain ⟨v, hv⟩ := Option.isSome_iff_exists.mp (h cells (List.mem_cons_self _ _))
    have ih := processRows_ok_map cols fc api rest
      (fun c hc => h c (List.mem_cons_of_mem _ hc))
    simp [processRows, seriesItem_ok hv, ih, Bind.bind, Except.bind]

/-- Conversely, a successful row loop is exactly the per-row map. -/
theorem processRows_ok_elim {cols : List String} {fc : String}
    {api : Json → Except String Json} :
    ∀ {rows : List (List Json)} {outs : List AnalysisOutcome},
      processRows cols fc api rows = .ok outs →
      outs = rows.map fun cells => process_excel_row (zipRow cols cells) fc api
  | [], outs, h => by
    simp [processRows] at h
    simp [h.symm]
  | cells :: rest, outs, h => by
    cases hs : seriesItem (zipRow cols cells) "条款/内容" with
    | error e => simp [processRows, hs, Bind.bind, Except.bind] at h
    | ok v =>
      cases hr : processRows cols fc api rest with
      | error e => simp [processRows, hs, hr, Bind.bind, Except.bind] at h
      | ok os =>
        have := processRows_ok_elim hr
        simp [processRows, hs, hr, Bind.bind, Except.bind] at h
        simp [h.symm, this]

/-- A label present in a table's columns is found in every well-sized
row's record. -/
theorem rowGet_zip_isSome :
    ∀ (cols : List String) (cells : List Json) (c : String),
      c ∈ cols → cols.length ≤ cells.length →
      (rowGet (zipRow cols cells) c).isSome = true
  | [], _, c, hc, _ => absurd hc (List.not_mem_nil c)
  | c0 :: cols', cells, c, hc, hlen => by
    cases cells with
    | nil => simp at hlen
    | cons v0 cells' =>
      by_cases he : c0 == c
      · simp [zipRow, rowGet, List.find?, he]
      · have hc' : c ∈ cols' := by
          rcases List.mem_cons.mp hc with h | h
          · exact absurd (beq_iff_eq.mpr h.symm) (by simpa using he)
          · exact h
        have := rowGet_zip_isSome cols' cells' c hc' (by simpa using hlen)
        simpa [zipRow, rowGet, List.find?, he] using this

/-- A label absent from a table's columns is absent from every row's
record. -/
theorem rowGet_zip_none :
    ∀ (cols : List String) (cells : List Json) (c : String),
      c ∉ cols → rowGet (zipRow cols cells) c = none
  | [], _, _, _ => rfl
  | c0 :: cols', cells, c, hc => by
    cases cells with
    | nil => rfl
    | cons v0 cells' =>
      have h0 : ¬(c0 == c) := by
        intro h
        exact hc (List.mem_cons.mpr (Or.inl (beq_iff_eq.mp h).symm))
      have := rowGet_zip_none cols' cells' c (fun h => hc (List.mem_cons_of_mem _ h))
      simpa [zipRow, rowGet, List.find?, h0] using this

/-! ## C1 -/

/-- C1: for every row, document text and client configuration,
`process_excel_row` totally returns an `AnalysisOutcome`: a successful
body yields the success record with empty `error`, and any failure at any
step yields the failure-shaped record whose three result fields are the
`处理失败` sentinel and whose `error` field is the failure's description;
consequently the row loop never aborts on a failing row — whenever the
per-row trace lookup succeeds for every row, the loop returns one outcome
per row, each row's outcome depending on that row alone. -/
theorem c1_process_excel_row_total :
    (∀ (row : Row) (fc : String) (api : Json → Except String Json),
      (∃ s cid ct, processRowBody row fc api = .ok (s, cid, ct) ∧
        process_excel_row row fc api = ⟨s, cid, ct, ""⟩) ∨
      (∃ e, processRowBody row fc api = .error e ∧
        process_excel_row row fc api = failureRecord e)) ∧
    (∀ (cols : List String) (fc : String) (api : Json → Except String Json)
      (rows : List (List Json)),
      (∀ cells ∈ rows, (rowGet (zipRow cols cells) "条款/内容").isSome = true) →
      processRows cols fc api rows =
        .ok (rows.map fun cells => process_excel_row (zipRow cols cells) fc api)) := by
  constructor
  · intro row fc api
    cases h : processRowBody row fc api with
    | ok v =>
      obtain ⟨s, cid, ct⟩ := v
      exact Or.inl ⟨s, cid, ct, rfl, by simp [process_excel_row, h]⟩
    | error e =>
      exact Or.inr ⟨e, rfl, by simp [process_excel_row, h]⟩
  · exact processRows_ok_map

/-- Witness for C1: a concrete one-row table whose API call fails with a
timeout still yields one failure-shaped outcome. -/
theorem c1_witness :
    processRows ["条款/内容"] "doc" (fun _ => .error "Read timed out")
      [[.str "x"]] =
      .ok [failureRecord "'条款类别'"] := by
  have h := c1_process_excel_row_total.2 ["条款/内容"] "doc"
    (fun _ => .error "Read timed out") [[.str "x"]] (by decide)
  exact h.trans (by rfl)

/-! ## C3 -/

/-- C3 (amended): every outcome produced by `process_excel_row` has all
four fields present by construction and is success-shaped (empty `error`)
or failure-shaped (the three result fields are the `处理失败` sentinel
string and `error` carries the failure's description); the `error` field
and the failure-shape result fields are always strings, but a
success-shaped outcome's three result fields are the values embedded in
the response and need not be non-null strings. -/
theorem c3_outcome_shape :
    ∀ (row : Row) (fc : String) (api : Json → Except String Json),
      (process_excel_row row fc api).error = "" ∨
      ((process_excel_row row fc api).summary = .str failSentinel ∧
        (process_excel_row row fc api).clauseId = .str failSentinel ∧
        (process_excel_row row fc api).clauseText = .str failSentinel ∧
        processRowBody row fc api = .error (process_excel_row row fc api).error) := by
  intro row fc api
  cases h : processRowBody row fc api with
  | ok v =>
    obtain ⟨s, cid, ct⟩ := v
    exact Or.inl (by simp [process_excel_row, h])
  | error e =>
    refine Or.inr ⟨?_, ?_, ?_, ?_⟩ <;>
      simp [process_excel_row, h, failureRecord]

/-- C3 counterexample: a response whose fenced block is the JSON object
`\x7b"概括总结": null\x7d` produces a success-shaped outcome (empty
`error`) whose `概括总结` field is `null` — not a non-null string, so the
claim that all four output fields are always non-null strings fails. -/
theorem c3_counterexample :
    (process_excel_row
        [("条款类别", .str "a"), ("条款/内容", .str "b"), ("填写说明", .str "c")]
        "doc"
        (fun _ => .ok (Json.obj (.cons "data" (.obj (.cons "outputs"
          (.obj (.cons "Answer"
            (.str "```json\n\x7b\"概括总结\": null\x7d\n```") .nil)) .nil)) .nil)))) =
      ⟨Json.null, .str notExtracted, .str notExtracted, ""⟩ ∧
    isJsonString Json.null = false := ⟨rfl, rfl⟩

/-! ## C5, C6, C10 -/

/-- C5: when the API answers with a body whose `data.outputs.Answer`
contains a well-formed fenced ```json block whose stripped content parses
to a JSON object carrying all three keys, `process_excel_row` returns the
success outcome carrying exactly those three values with an empty `error`
field. -/
theorem c5_success_roundtrip :
    ∀ (row : Row) (fc : String) (api : Json → Except String Json)
      (v1 v2 v3 : Json) (resp : Json) (ans : String) (content : List Char)
      (kvs : JsonObj) (s1 s2 s3 : Json),
      rowGet row "条款类别" = some v1 →
      rowGet row "条款/内容" = some v2 →
      rowGet row "填写说明" = some v3 →
      api (buildPayload (queryStr v1 v2 v3) fc) = .ok resp →
      getAnswerStr resp = .ok ans →
      extractFenced ans.data = some content →
      jsonLoads (pyStrip content) = .ok (.obj kvs) →
      kvs.find "概括总结" = some s1 →
      kvs.find "条款编号" = some s2 →
      kvs.find "条款原文" = some s3 →
      process_excel_row row fc api = ⟨s1, s2, s3, ""⟩ := by
  intro row fc api v1 v2 v3 resp ans content kvs s1 s2 s3
  intro h1 h2 h3 h4 h5 h6 h7 h8 h9 h10
  simp [process_excel_row, processRowBody, seriesItem_ok h1, seriesItem_ok h2,
    seriesItem_ok h3, h4, h5, h6, h7, Bind.bind, Except.bind,
    JsonObj.getD, h8, h9, h10]

/-- Witness for C5 at a fully concrete row, document and response. -/
theorem c5_witness :
    process_excel_row
      [("条款类别", .str "类"), ("条款/内容", .str "内"), ("填写说明", .str "说")]
      "全文"
      (fun _ => .ok (Json.obj (.cons "data" (.obj (.cons "outputs"
        (.obj (.cons "Answer"
          (.str "说明```json\n \x7b\"概括总结\": \"总\", \"条款编号\": \"第3.1条\", \"条款原文\": \"原文\"\x7d \n```尾注") .nil)) .nil)) .nil))) =
      ⟨.str "总", .str "第3.1条", .str "原文", ""⟩ := by
  exact c5_success_roundtrip
    [("条款类别", .str "类"), ("条款/内容", .str "内"), ("填写说明", .str "说")]
    "全文" _
    (.str "类") (.str "内") (.str "说") _
    "说明```json\n \x7b\"概括总结\": \"总\", \"条款编号\": \"第3.1条\", \"条款原文\": \"原文\"\x7d \n```尾注"
    "\n \x7b\"概括总结\": \"总\", \"条款编号\": \"第3.1条\", \"条款原文\": \"原文\"\x7d \n".data
    (.cons "概括总结" (.str "总") (.cons "条款编号" (.str "第3.1条")
      (.cons "条款原文" (.str "原文") .nil)))
    (.str "总") (.str "第3.1条") (.str "原文")
    rfl rfl rfl rfl rfl rfl rfl rfl rfl rfl

/-- C6: when the fenced block's stripped content parses to the empty JSON
object, `process_excel_row` still returns a success outcome, with all
three result fields set to the `未提取` sentinel: absent keys are only
absence markers, never failures. -/
theorem c6_empty_object_sentinels :
    ∀ (row : Row) (fc : String) (api : Json → Except String Json)
      (v1 v2 v3 : Json) (resp : Json) (ans : String) (content : List Char),
      rowGet row "条款类别" = some v1 →
      rowGet row "条款/内容" = some v2 →
      rowGet row "填写说明" = some v3 →
      api (buildPayload (queryStr v1 v2 v3) fc) = .ok resp →
      getAnswerStr resp = .ok ans →
      extractFenced ans.data = some content →
      jsonLoads (pyStrip content) = .ok (.obj .nil) →
      process_excel_row row fc api =
        ⟨.str notExtracted, .str notExtracted, .str notExtracted, ""⟩ := by
  intro row fc api v1 v2 v3 resp ans content h1 h2 h3 h4 h5 h6 h7
  simp [process_excel_row, processRowBody, seriesItem_ok h1, seriesItem_ok h2,
    seriesItem_ok h3, h4, h5, h6, h7, Bind.bind, Except.bind,
    JsonObj.getD, JsonObj.find]

/-- Witness for C6: a concrete response whose fenced block is `\x7b\x7d`. -/
theorem c6_witness :
    process_excel_row
      [("条款类别", .str "类"), ("条款/内容", .str "内"), ("填写说明", .str "说")]
      "全文"
      (fun _ => .ok (Json.obj (.cons "data" (.obj (.cons "outputs"
        (.obj (.cons "Answer" (.str "```json\x7b\x7d```") .nil)) .nil)) .nil))) =
      ⟨.str notExtracted, .str notExtracted, .str notExtracted, ""⟩ := by
  exact c6_empty_object_sentinels
    [("条款类别", .str "类"), ("条款/内容", .str "内"), ("填写说明", .str "说")]
    "全文" _
    (.str "类") (.str "内") (.str "说") _
    "```json\x7b\x7d```" "\x7b\x7d".data
    rfl rfl rfl rfl rfl rfl rfl

/-- C10: when the fenced block's stripped content parses successfully but
the decoded value is not a JSON object, the `result.get` attribute lookup
fails, is caught, and `process_excel_row` returns the failure-shaped
record (with the `AttributeError` description), not a success outcome with
the `未提取` sentinels. -/
theorem c10_non_object_is_failure :
    ∀ (row : Row) (fc : String) (api : Json → Except String Json)
      (v1 v2 v3 : Json) (resp : Json) (ans : String) (content : List Char)
      (v : Json),
      rowGet row "条款类别" = some v1 →
      rowGet row "条款/内容" = some v2 →
      rowGet row "填写说明" = some v3 →
      api (buildPayload (queryStr v1 v2 v3) fc) = .ok resp →
      getAnswerStr resp = .ok ans →
      extractFenced ans.data = some content →
      jsonLoads (pyStrip content) = .ok v →
      (∀ kvs, v ≠ .obj kvs) →
      process_excel_row row fc api = failureRecord (attrErrMsg v) := by
  intro row fc api v1 v2 v3 resp ans content v h1 h2 h3 h4 h5 h6 h7 hv
  have hbody : processRowBody row fc api = .error (attrErrMsg v) := by
    simp only [processRowBody, seriesItem_ok h1, seriesItem_ok h2, seriesItem_ok h3,
      h4, h5, h6, h7, Bind.bind, Except.bind]
  simp [process_excel_row, hbody]

/-- Witness for C10: a fenced block containing the JSON list `[1]` makes
the row fail with the modelled `AttributeError` description. -/
theorem c10_witness :
    process_excel_row
      [("条款类别", .str "类"), ("条款/内容", .str "内"), ("填写说明", .str "说")]
      "全文"
      (fun _ => .ok (Json.obj (.cons "data" (.obj (.cons "outputs"
        (.obj (.cons "Answer" (.str "```json[1]```") .nil)) .nil)) .nil))) =
      failureRecord "'list' object has no attribute 'get'" := by
  have h := c10_non_object_is_failure
    [("条款类别", .str "类"), ("条款/内容", .str "内"), ("填写说明", .str "说")]
    "全文"
    (fun _ => .ok (Json.obj (.cons "data" (.obj (.cons "outputs"
      (.obj (.cons "Answer" (.str "```json[1]```") .nil)) .nil)) .nil)))
    (.str "类") (.str "内") (.str "说")
    (Json.obj (.cons "data" (.obj (.cons "outputs"
      (.obj (.cons "Answer" (.str "```json[1]```") .nil)) .nil)) .nil))
    "```json[1]```" "[1]".data
    (.arr (.cons (.num "1") .nil))
    rfl rfl rfl rfl rfl rfl rfl (fun kvs h => by cases h)
  exact h.trans (by rfl)

/-! ## C9 -/

/-- C9: the outbound request body is exactly the blocking-mode object with
fixed user `haha-shareholder` carrying the serialized query and the full
document text; the row's result depends on the API only through its answer
to that one payload (one call, no retry); the serialized query is the
two-space-indented JSON object of the three clause fields in stable key
order with every character at or above `0x20` other than the quote and
backslash preserved unescaped; and the blocking call's timeout is 600
seconds. -/
theorem c9_request_contract :
    (∀ (v1 v2 v3 : Json) (fc : String),
      buildPayload (queryStr v1 v2 v3) fc =
        Json.obj (.cons "response_mode" (.str "blocking")
          (.cons "user" (.str "haha-shareholder")
            (.cons "inputs" (Json.obj (.cons "Query" (.str (queryStr v1 v2 v3))
              (.cons "File" (.str fc) .nil))) .nil)))) ∧
    (∀ (row : Row) (fc : String) (v1 v2 v3 : Json),
      rowGet row "条款类别" = some v1 →
      rowGet row "条款/内容" = some v2 →
      rowGet row "填写说明" = some v3 →
      ∀ api api2 : Json → Except String Json,
        api (buildPayload (queryStr v1 v2 v3) fc) =
          api2 (buildPayload (queryStr v1 v2 v3) fc) →
        process_excel_row row fc api = process_excel_row row fc api2) ∧
    (∀ a b c : String,
      queryStr (.str a) (.str b) (.str c) =
        "\x7b\n  \"条款类别\": \"" ++ escStr a ++ "\",\n  \"条款/内容\": \"" ++
          escStr b ++ "\",\n  \"填写说明\": \"" ++ escStr c ++ "\"\n\x7d") ∧
    (∀ ch : Char, ch ≠ '"' → ch ≠ '\\' → 0x20 ≤ ch.toNat → escChar ch = [ch]) ∧
    requestTimeoutSeconds = 600 := by
  refine ⟨fun _ _ _ _ => rfl, ?_, ?_, ?_, rfl⟩
  · intro row fc v1 v2 v3 h1 h2 h3 api api2 hEq
    simp only [process_excel_row, processRowBody, seriesItem_ok h1, seriesItem_ok h2,
      seriesItem_ok h3, Bind.bind, Except.bind, hEq]
  · intro a b c
    apply String.ext
    simp only [queryStr, dumpVal, dumpObj, indentSp, String.data_append,
      List.append_assoc]
    rfl
  · intro ch h1 h2 h3
    have hn : ¬ch.toNat < 0x20 := by omega
    have e1 : ch ≠ '\n' := by rintro rfl; exact hn (by decide)
    have e2 : ch ≠ '\t' := by rintro rfl; exact hn (by decide)
    have e3 : ch ≠ '\r' := by rintro rfl; exact hn (by decide)
    have e4 : ch ≠ '\x08' := by rintro rfl; exact hn (by decide)
    have e5 : ch ≠ '\x0c' := by rintro rfl; exact hn (by decide)
    simp [escChar, h1, h2, e1, e2, e3, e4, e5, hn]

/-- Witness for C9: two concrete API functions that differ away from the
built payload but agree on it give identical row outcomes, and a concrete
non-ASCII character is passed through unescaped. -/
theorem c9_witness :
    process_excel_row
      [("条款类别", .str "类"), ("条款/内容", .str "内"), ("填写说明", .str "说")]
      "doc"
      (fun p =>
        if p = buildPayload (queryStr (.str "类") (.str "内") (.str "说")) "doc"
        then .error "Read timed out" else .ok .null) =
    process_excel_row
      [("条款类别", .str "类"), ("条款/内容", .str "内"), ("填写说明", .str "说")]
      "doc"
      (fun _ => .error "Read timed out") ∧
    escChar '中' = ['中'] := by
  constructor
  · exact c9_request_contract.2.1
      [("条款类别", .str "类"), ("条款/内容", .str "内"), ("填写说明", .str "说")]
      "doc" (.str "类") (.str "内") (.str "说") rfl rfl rfl
      (fun p =>
        if p = buildPayload (queryStr (.str "类") (.str "内") (.str "说")) "doc"
        then .error "Read timed out" else .ok .null)
      (fun _ => .error "Read timed out")
      (by simp)
  · exact c9_request_contract.2.2.2.1 '中' (by decide) (by decide) (by decide)

/-! ## C2 -/

/-- Label lookup on a row extended with one labelled cell. -/
theorem rowGet_cons (k : String) (v : Json) (r : Row) (c : String) :
    rowGet ((k, v) :: r) c = if k == c then some v else rowGet r c := by
  by_cases h : k == c <;> simp [rowGet, List.find?, h]

/-- Reading every column of a duplicate-free, well-sized row record
recovers the cell list. -/
theorem map_rowGet_zip (d : Json) :
    ∀ (cols : List String) (cells : List Json), cols.Nodup →
      cells.length = cols.length →
      cols.map (fun c => (rowGet (zipRow cols cells) c).getD d) = cells
  | [], [], _, _ => rfl
  | [], v :: _, _, hlen => by simp at hlen
  | c0 :: cols', cells, hnd, hlen => by
    cases cells with
    | nil => simp at hlen
    | cons v0 cells' =>
      obtain ⟨hc0, hnd'⟩ := List.nodup_cons.mp hnd
      have hzip : zipRow (c0 :: cols') (v0 :: cells') =
          (c0, v0) :: zipRow cols' cells' := rfl
      have htail : cols'.map
          (fun c => (rowGet (zipRow (c0 :: cols') (v0 :: cells')) c).getD d) =
          cols'.map (fun c => (rowGet (zipRow cols' cells') c).getD d) := by
        apply List.map_congr_left
        intro c hc
        have hne : ¬(c0 == c) := by
          intro h
          exact hc0 ((beq_iff_eq.mp h) ▸ hc)
        rw [hzip, rowGet_cons, if_neg hne]
      have hhead : (rowGet (zipRow (c0 :: cols') (v0 :: cells')) c0).getD d = v0 := by
        rw [hzip, rowGet_cons, if_pos (beq_iff_eq.mpr rfl)]
        rfl
      simp only [List.map_cons, hhead, htail]
      rw [map_rowGet_zip d cols' cells' hnd' (by simpa using hlen)]

/-- With distinct input columns disjoint from the four appended names, an
output row is the original cells followed by the outcome's four values. -/
theorem outputRow_split (cols : List String) (cells : List Json)
    (o : AnalysisOutcome) (hnd : cols.Nodup)
    (hdisj : ∀ c ∈ newCols, c ∉ cols)
    (hlen : cells.length = cols.length) :
    (outCols cols).map (outputCell (zipRow cols cells) o) =
      cells ++ [o.summary, o.clauseId, o.clauseText, .str o.error] := by
  have hout : outCols cols = cols ++ newCols := by
    unfold outCols
    rw [List.filter_eq_self.mpr]
    intro c hc
    simpa using hdisj c hc
  rw [hout, List.map_append]
  have h1 : cols.map (outputCell (zipRow cols cells) o) =
      cols.map (fun c => (rowGet (zipRow cols cells) c).getD (.str "")) := by
    apply List.map_congr_left
    intro c hc
    have n1 : ¬c = "概括总结" := fun h => hdisj "概括总结" (by decide) (h ▸ hc)
    have n2 : ¬c = "条款编号" := fun h => hdisj "条款编号" (by decide) (h ▸ hc)
    have n3 : ¬c = "条款原文" := fun h => hdisj "条款原文" (by decide) (h ▸ hc)
    have n4 : ¬c = "error" := fun h => hdisj "error" (by decide) (h ▸ hc)
    simp [outputCell, n1, n2, n3, n4]
  rw [h1, map_rowGet_zip (.str "") cols cells hnd hlen]
  rfl

/-- C2 (amended): whenever a document's processing completes and the input
table has distinct column labels, none of which is one of the four
appended names, the output table keeps every original column in order,
appends exactly `概括总结`, `条款编号`, `条款原文`, `error` in that fixed
order, and has one row per input row in input order, each row being the
original cells followed by that row's outcome values. -/
theorem c2_output_table :
    ∀ (cols : List String) (rows : List (List Json)) (fc : String)
      (api : Json → Except String Json) (t : Table),
      (∀ r ∈ rows, r.length = cols.length) →
      cols.Nodup →
      (∀ c ∈ newCols, c ∉ cols) →
      runDocument cols rows fc api = .ok t →
      t.cols = cols ++ newCols ∧
      t.rows.length = rows.length ∧
      (∀ i : Nat,
        t.rows[i]?.map (List.take cols.length) = rows[i]? ∧
        t.rows[i]?.map (List.drop cols.length) =
          (rows[i]?).map (fun cells =>
            [(process_excel_row (zipRow cols cells) fc api).summary,
             (process_excel_row (zipRow cols cells) fc api).clauseId,
             (process_excel_row (zipRow cols cells) fc api).clauseText,
             .str (process_excel_row (zipRow cols cells) fc api).error])) := by
  intro cols rows fc api t hwf hnd hdisj hrun
  cases hpr : processRows cols fc api rows with
  | error e => simp [runDocument, hpr, Bind.bind, Except.bind] at hrun
  | ok outs =>
    have houts := processRows_ok_elim hpr
    simp only [runDocument, hpr, Bind.bind, Except.bind, Except.ok.injEq] at hrun
    have hout : outCols cols = cols ++ newCols := by
      unfold outCols
      rw [List.filter_eq_self.mpr]
      intro c hc
      simpa using hdisj c hc
    have hzipmap : rows.zip outs = rows.map (fun cells =>
        (cells, process_excel_row (zipRow cols cells) fc api)) := by
      rw [houts]
      exact (List.map_prod_left_eq_zip _).symm
    have hrows : t.rows = rows.map (fun cells =>
        cells ++ [(process_excel_row (zipRow cols cells) fc api).summary,
          (process_excel_row (zipRow cols cells) fc api).clauseId,
          (process_excel_row (zipRow cols cells) fc api).clauseText,
          .str (process_excel_row (zipRow cols cells) fc api).error]) := by
      rw [← hrun]
      simp only [buildOutputTable, hzipmap, List.map_map]
      apply List.map_congr_left
      intro cells hc
      exact outputRow_split cols cells _ hnd hdisj (hwf cells hc)
    refine ⟨by rw [← hrun]; exact hout, by rw [hrows]; simp, ?_⟩
    intro i
    constructor
    · rw [hrows, List.getElem?_map]
      cases hi : rows[i]? with
      | none => rfl
      | some cells =>
        have hlen : cells.length = cols.length := hwf cells (List.getElem?_mem hi)
        simp only [Option.map_map, Option.map, ← hlen, List.take_left]
    · rw [hrows, List.getElem?_map]
      cases hi : rows[i]? with
      | none => rfl
      | some cells =>
        have hlen : cells.length = cols.length := hwf cells (List.getElem?_mem hi)
        simp only [Option.map_map, Option.map, ← hlen, List.drop_left]

/-- C2 counterexample: an input table that already contains a column named
`error` — the code overwrites it in place instead of appending a second
one, so the output has five columns, not the original two plus four. -/
theorem c2_counterexample :
    (runDocument ["条款/内容", "error"] [[.str "x", .str "y"]] "doc"
        (fun _ => .error "boom")).map Table.cols =
      .ok ["条款/内容", "error", "概括总结", "条款编号", "条款原文"] ∧
    ["条款/内容", "error", "概括总结", "条款编号", "条款原文"] ≠
      ["条款/内容", "error"] ++ newCols := by
  exact ⟨rfl, by decide⟩

/-- Witness for C2 at a concrete one-column, one-row table. -/
theorem c2_witness :
    (Table.mk (["条款/内容"] ++ newCols)
        [[.str "x", .str failSentinel, .str failSentinel, .str failSentinel,
          .str (keyErrMsg "条款类别")]]).cols = ["条款/内容"] ++ newCols ∧
    (Table.mk (["条款/内容"] ++ newCols)
        [[.str "x", .str failSentinel, .str failSentinel, .str failSentinel,
          .str (keyErrMsg "条款类别")]]).rows.length = 1 := by
  have h := c2_output_table ["条款/内容"] [[.str "x"]] "doc" (fun _ => .error "boom")
    (Table.mk (["条款/内容"] ++ newCols)
      [[.str "x", .str failSentinel, .str failSentinel, .str failSentinel,
        .str (keyErrMsg "条款类别")]])
    (by decide) (by decide) (by decide) rfl
  exact ⟨h.1, h.2.1⟩

/-! ## C4 -/

/-- C4 (amended): when the `条款/内容` column is present (and rows are
well-sized), a document's processing always completes with one output row
per input row, whatever the API does; a row missing `条款类别` (or, with
the first two present, missing `填写说明`) surfaces as a row-level
failure-shaped outcome whose description names the missing field, and the
sibling rows are unaffected.  (A missing `条款/内容` column, by contrast,
aborts the whole document — see the counterexample.) -/
theorem c4_missing_field_behaviour :
    ∀ (cols : List String) (rows : List (List Json)) (fc : String)
      (api : Json → Except String Json),
      (∀ r ∈ rows, r.length = cols.length) →
      "条款/内容" ∈ cols →
      (runDocument cols rows fc api =
        .ok (buildOutputTable cols rows
          (rows.map fun cells => process_excel_row (zipRow cols cells) fc api)) ∧
        (buildOutputTable cols rows
          (rows.map fun cells =>
            process_excel_row (zipRow cols cells) fc api)).rows.length =
          rows.length) ∧
      ("条款类别" ∉ cols →
        ∀ cells ∈ rows, process_excel_row (zipRow cols cells) fc api =
          failureRecord (keyErrMsg "条款类别")) ∧
      ("条款类别" ∈ cols → "填写说明" ∉ cols →
        ∀ cells ∈ rows, process_excel_row (zipRow cols cells) fc api =
          failureRecord (keyErrMsg "填写说明")) := by
  intro cols rows fc api hwf hmem
  have hok : processRows cols fc api rows =
      .ok (rows.map fun cells => process_excel_row (zipRow cols cells) fc api) :=
    processRows_ok_map cols fc api rows
      (fun cells hc => rowGet_zip_isSome cols cells _ hmem (le_of_eq (hwf cells hc).symm))
  refine ⟨⟨?_, ?_⟩, ?_, ?_⟩
  · simp [runDocument, hok, Bind.bind, Except.bind]
  · simp [buildOutputTable, List.length_zip]
  · intro habs cells _
    have hnone := rowGet_zip_none cols cells "条款类别" habs
    simp [process_excel_row, processRowBody, seriesItem_err hnone,
      Bind.bind, Except.bind]
  · intro hcat habs cells hc
    obtain ⟨v1, hv1⟩ := Option.isSome_iff_exists.mp
      (rowGet_zip_isSome cols cells _ hcat (le_of_eq (hwf cells hc).symm))
    obtain ⟨v2, hv2⟩ := Option.isSome_iff_exists.mp
      (rowGet_zip_isSome cols cells _ hmem (le_of_eq (hwf cells hc).symm))
    have hnone := rowGet_zip_none cols cells "填写说明" habs
    simp [process_excel_row, processRowBody, seriesItem_ok hv1, seriesItem_ok hv2,
      seriesItem_err hnone, Bind.bind, Except.bind]

/-- C4 counterexample: a table whose columns lack `条款/内容` — the trace
log's lookup raises outside the row-level catch, the per-document `try`
catches it, and the whole document is abandoned with no output table, so
the missing field is not recorded as a row-processing failure and the
output spreadsheet does not contain every row. -/
theorem c4_counterexample :
    runDocument ["条款类别", "填写说明"] [[.str "a", .str "b"]] "doc"
        (fun _ => .error "boom") = .error (keyErrMsg "条款/内容") ∧
    keyErrMsg "条款/内容" = "'条款/内容'" := ⟨rfl, rfl⟩

/-- Witness for C4: a concrete row lacking `条款类别` yields the
failure-shaped outcome naming that field. -/
theorem c4_witness :
    process_excel_row (zipRow ["条款/内容"] [.str "x"]) "doc"
        (fun _ => .error "boom") =
      failureRecord (keyErrMsg "条款类别") := by
  exact (c4_missing_field_behaviour ["条款/内容"] [[.str "x"]] "doc"
      (fun _ => .error "boom") (by decide) (by decide)).2.1
    (by decide) [.str "x"] (List.mem_cons_self _ _)

/-! ## C7 and C8: structure of normalized documents

The two claims about `read_word_doc` rest on a common description of its
output: the kept lines are stripped, heading-free, dot-leader-free,
tab-free fixed points of the cleaning, no two consecutive kept lines are
empty, and the final collapse turns the joined lines into the blank-free
rendering computed by `renderNorm` below. -/

/-- Membership in a stripped text implies membership in the original. -/
theorem mem_pyStrip {x : Char} {l : List Char} (h : x ∈ pyStrip l) : x ∈ l := by
  unfold pyStrip at h
  rw [List.mem_reverse] at h
  have h2 := (List.dropWhile_sublist isPySpace).mem h
  rw [List.mem_reverse] at h2
  exact (List.dropWhile_sublist isPySpace).mem h2

/-- The head of a `dropWhile` result fails the predicate. -/
theorem head?_dropWhile {p : Char → Bool} :
    ∀ {l : List Char} {c : Char}, (l.dropWhile p).head? = some c → p c = false
  | [], c, h => by simp at h
  | c0 :: rest, c, h => by
    by_cases h0 : p c0
    · rw [List.dropWhile_cons_of_pos h0] at h
      exact head?_dropWhile h
    · rw [List.dropWhile_cons_of_neg h0] at h
      cases h
      simpa using h0

/-- The last element of a nonempty `dropWhile` result is the last element
of the input. -/
theorem getLast?_dropWhile {p : Char → Bool} :
    ∀ {l : List Char}, l.dropWhile p ≠ [] →
      (l.dropWhile p).getLast? = l.getLast?
  | [], h => absurd rfl h
  | c0 :: rest, h => by
    by_cases h0 : p c0
    · rw [List.dropWhile_cons_of_pos h0] at h ⊢
      have hr : rest ≠ [] := by
        intro hr
        exact h (by simp [hr])
      rw [getLast?_dropWhile h, List.getLast?_cons]
      cases rest with
      | nil => exact absurd rfl hr
      | cons a l => simp [List.getLast?_cons]
    · rw [List.dropWhile_cons_of_neg h0]

/-- The first character of a stripped text is not whitespace. -/
theorem pyStrip_head {l : List Char} {c : Char}
    (h : (pyStrip l).head? = some c) : isPySpace c = false := by
  unfold pyStrip at h
  rw [List.head?_reverse] at h
  have hne : (l.dropWhile isPySpace).reverse.dropWhile isPySpace ≠ [] := by
    intro he
    rw [he] at h
    simp at h
  rw [getLast?_dropWhile hne, List.getLast?_reverse] at h
  exact head?_dropWhile h

/-- The last character of a stripped text is not whitespace. -/
theorem pyStrip_getLast {l : List Char} {c : Char}
    (h : (pyStrip l).getLast? = some c) : isPySpace c = false := by
  unfold pyStrip at h
  rw [List.getLast?_reverse] at h
  exact head?_dropWhile h

/-- Stripping is the identity on a text whose two ends are not
whitespace. -/
theorem pyStrip_eq_self {l : List Char}
    (hh : ∀ c, l.head? = some c → isPySpace c = false)
    (hl : ∀ c, l.getLast? = some c → isPySpace c = false) :
    pyStrip l = l := by
  have h1 : l.dropWhile isPySpace = l := by
    cases l with
    | nil => rfl
    | cons c rest => exact List.dropWhile_cons_of_neg (by simp [hh c rfl])
  have h2 : l.reverse.dropWhile isPySpace = l.reverse := by
    cases hr : l.reverse with
    | nil => rfl
    | cons c rest =>
      have hc : isPySpace c = false := by
        apply hl
        rw [← List.head?_reverse, hr]
        rfl
      exact List.dropWhile_cons_of_neg (by simp [hc])
  unfold pyStrip
  rw [h1, h2, List.reverse_reverse]

/-- Tab replacement is idempotent. -/
theorem tabToSpace_idem (l : List Char) : tabToSpace (tabToSpace l) = tabToSpace l := by
  unfold tabToSpace
  rw [List.map_map]
  apply List.map_congr_left
  intro c _
  by_cases h : c = '\t' <;> simp [h]

/-- Tab replacement cannot introduce a newline. -/
theorem mem_tabToSpace_nl {l : List Char} (h : '\n' ∈ tabToSpace l) : '\n' ∈ l := by
  obtain ⟨c, hc, he⟩ := List.mem_map.mp h
  by_cases ht : c = '\t'
  · simp [ht] at he
  · rw [if_neg ht] at he
    exact he ▸ hc

/-- Tab replacement does not change emptiness. -/
theorem tabToSpace_isEmpty (l : List Char) : (tabToSpace l).isEmpty = l.isEmpty := by
  cases l <;> rfl

/-- A replaced character equals a non-tab, non-space character exactly
when the original does. -/
theorem tabChar_eq (d : Char) (hd1 : d ≠ '\t') (hd2 : d ≠ ' ') (c : Char) :
    decide ((if c = '\t' then ' ' else c) = d) = decide (c = d) := by
  by_cases h : c = '\t'
  · subst h
    simp [Ne.symm hd2, Ne.symm hd1]
  · simp [h]

/-- Tab replacement preserves the heading test: the pattern characters
`第`, the numerals and `条` are neither tabs nor spaces, so each position
matches after replacement exactly when it matched before. -/
theorem headingMatch_tabToSpace (t : List Char) :
    headingMatch (tabToSpace t) = headingMatch t := by
  have hnum : (isCnNumeral ∘ fun c => if c = '\t' then ' ' else c) = isCnNumeral := by
    funext c
    by_cases h : c = '\t' <;> simp [h, isCnNumeral]
  cases t with
  | nil => rfl
  | cons c rest =>
    show headingMatch ((if c = '\t' then ' ' else c) :: tabToSpace rest) = _
    simp only [headingMatch, tabToSpace, List.takeWhile_map, List.dropWhile_map, hnum]
    have htiao : headIsTiao ((rest.dropWhile isCnNumeral).map
        (fun c => if c = '\t' then ' ' else c)) =
        headIsTiao (rest.dropWhile isCnNumeral) := by
      cases hdw : rest.dropWhile isCnNumeral with
      | nil => rfl
      | cons d rest2 =>
        show headIsTiao ((if d = '\t' then ' ' else d) :: _) = _
        simp only [headIsTiao]
        exact tabChar_eq '条' (by decide) (by decide) d
    rw [htiao, tabChar_eq '第' (by decide) (by decide) c,
      show List.map (fun c => if c = '\t' then ' ' else c) (rest.takeWhile isCnNumeral) =
        tabToSpace (rest.takeWhile isCnNumeral) from rfl,
      tabToSpace_isEmpty]

/-- Tab replacement preserves the three-dot lookahead. -/
theorem next3Dots_tabToSpace (l : List Char) :
    next3Dots (tabToSpace l) = next3Dots l := by
  match l with
  | [] => rfl
  | [c1] => rfl
  | [c1, c2] => rfl
  | c1 :: c2 :: c3 :: rest =>
    show next3Dots ((if c1 = '\t' then ' ' else c1) :: (if c2 = '\t' then ' ' else c2) ::
      (if c3 = '\t' then ' ' else c3) :: tabToSpace rest) = _
    simp only [next3Dots]
    rw [tabChar_eq '.' (by decide) (by decide) c1, tabChar_eq '.' (by decide) (by decide) c2,
      tabChar_eq '.' (by decide) (by decide) c3]

/-- Tab replacement preserves the dot-leader test. -/
theorem hasDots_tabToSpace : ∀ t : List Char, hasDots (tabToSpace t) = hasDots t
  | [] => rfl
  | c :: rest => by
    show hasDots ((if c = '\t' then ' ' else c) :: tabToSpace rest) = _
    simp only [hasDots]
    rw [tabChar_eq '.' (by decide) (by decide) c, next3Dots_tabToSpace,
      hasDots_tabToSpace rest]

/-- A cleaned line (strip, then tab replacement) is a fixed point of
stripping. -/
theorem pyStrip_tab_strip (p : List Char) :
    pyStrip (tabToSpace (pyStrip p)) = tabToSpace (pyStrip p) := by
  apply pyStrip_eq_self
  · intro c hc
    rw [show tabToSpace (pyStrip p) = (pyStrip p).map (fun c => if c = '\t' then ' ' else c)
        from rfl, List.head?_map] at hc
    cases hh : (pyStrip p).head? with
    | none => simp [hh] at hc
    | some d =>
      rw [hh] at hc
      have hd := pyStrip_head hh
      have hdt : ¬d = '\t' := by
        intro h
        rw [h] at hd
        simp [isPySpace] at hd
      simp only [Option.map, hdt, if_neg hdt] at hc
      cases hc
      exact hd
  · intro c hc
    rw [show tabToSpace (pyStrip p) = (pyStrip p).map (fun c => if c = '\t' then ' ' else c)
        from rfl, List.getLast?_map] at hc
    cases hh : (pyStrip p).getLast? with
    | none => simp [hh] at hc
    | some d =>
      rw [hh] at hc
      have hd := pyStrip_getLast hh
      have hdt : ¬d = '\t' := by
        intro h
        rw [h] at hd
        simp [isPySpace] at hd
      simp only [Option.map, hdt, if_neg hdt] at hc
      cases hc
      exact hd

/-- Unfolding of the cleaning loop when the paragraph is filtered out. -/
theorem keepGo_cons_skip {p : List Char} (e s : Bool) (ps : List (List Char))
    (h : (headingMatch (pyStrip p) || hasDots (pyStrip p)) = true) :
    keepGo e s (p :: ps) = keepGo e s ps := by
  simp [keepGo, h]

/-- Unfolding of the cleaning loop when a blank line is collapsed. -/
theorem keepGo_cons_blank {p : List Char} (e s : Bool) (ps : List (List Char))
    (h1 : (headingMatch (pyStrip p) || hasDots (pyStrip p)) = false)
    (h2 : (pyStrip p).isEmpty = true) (hs : s = true) (he : e = true) :
    keepGo e s (p :: ps) = keepGo e s ps := by
  simp [keepGo, h1, h2, hs, he]

/-- Unfolding of the cleaning loop when the paragraph is kept. -/
theorem keepGo_cons_keep {p : List Char} (e s : Bool) (ps : List (List Char))
    (h1 : (headingMatch (pyStrip p) || hasDots (pyStrip p)) = false)
    (h2 : ((pyStrip p).isEmpty && s && e) = false) :
    keepGo e s (p :: ps) =
      tabToSpace (pyStrip p) :: keepGo (pyStrip p).isEmpty true ps := by
  simp only [keepGo, h1, h2]
  rfl

/-- After a kept blank line the loop state never emits another blank
line first: the head of the remaining kept lines is nonempty. -/
theorem keepGo_tt_head :
    ∀ (ps : List (List Char)) (l : List Char),
      (keepGo true true ps).head? = some l → l ≠ []
  | [], l, h => by simp [keepGo] at h
  | p :: ps, l, h => by
    by_cases h1 : (headingMatch (pyStrip p) || hasDots (pyStrip p)) = true
    · rw [keepGo_cons_skip true true ps h1] at h
      exact keepGo_tt_head ps l h
    · rw [Bool.not_eq_true] at h1
      by_cases h2 : (pyStrip p).isEmpty = true
      · rw [keepGo_cons_blank true true ps h1 h2 rfl rfl] at h
        exact keepGo_tt_head ps l h
      · rw [Bool.not_eq_true] at h2
        rw [keepGo_cons_keep true true ps h1 (by simp [h2])] at h
        simp only [List.head?_cons, Option.some.injEq] at h
        intro he
        rw [he] at h
        have h3 := tabToSpace_isEmpty (pyStrip p)
        rw [h] at h3
        simp [h2] at h3

/-- The cleaning loop never keeps two consecutive blank lines. -/
theorem keepGo_noTwoEmpty :
    ∀ (ps : List (List Char)) (e s : Bool), noTwoEmptyB (keepGo e s ps) = true
  | [], _, _ => rfl
  | p :: ps, e, s => by
    by_cases h1 : (headingMatch (pyStrip p) || hasDots (pyStrip p)) = true
    · rw [keepGo_cons_skip e s ps h1]
      exact keepGo_noTwoEmpty ps e s
    · rw [Bool.not_eq_true] at h1
      by_cases h2c : ((pyStrip p).isEmpty && s && e) = true
      · rw [Bool.and_eq_true, Bool.and_eq_true] at h2c
        obtain ⟨⟨h2, hs⟩, he⟩ := h2c
        rw [keepGo_cons_blank e s ps h1 h2 hs he]
        exact keepGo_noTwoEmpty ps e s
      · rw [Bool.not_eq_true] at h2c
        rw [keepGo_cons_keep e s ps h1 h2c]
        by_cases h2 : (pyStrip p).isEmpty = true
        · -- a blank line is emitted; the next kept line is nonempty
          cases hk : keepGo (pyStrip p).isEmpty true ps with
          | nil => rfl
          | cons l2 rest =>
            have hl2 : l2 ≠ [] := by
              apply keepGo_tt_head ps l2
              rw [← h2] at hk ⊢
              rw [hk]
              rfl
            have hl2e : l2.isEmpty = false := by
              cases l2 with
              | nil => exact absurd rfl hl2
              | cons a t => rfl
            show noTwoEmptyB (tabToSpace (pyStrip p) :: l2 :: rest) = true
            simp only [noTwoEmptyB, hl2e, Bool.and_false, Bool.not_false,
              Bool.true_and]
            have := keepGo_noTwoEmpty ps (pyStrip p).isEmpty true
            rw [hk] at this
            exact this
        · cases hk : keepGo (pyStrip p).isEmpty true ps with
          | nil => rfl
          | cons l2 rest =>
            have hte : (tabToSpace (pyStrip p)).isEmpty = false := by
              rw [tabToSpace_isEmpty]
              exact Bool.not_eq_true _ |>.mp h2
            show noTwoEmptyB (tabToSpace (pyStrip p) :: l2 :: rest) = true
            simp only [noTwoEmptyB, hte, Bool.false_and, Bool.not_false,
              Bool.true_and]
            have := keepGo_noTwoEmpty ps (pyStrip p).isEmpty true
            rw [hk] at this
            exact this

/-- Every kept line is a stripped, tab-free text on which both filters
fail. -/
theorem keepGo_good :
    ∀ (ps : List (List Char)) (e s : Bool) (l : List Char),
      l ∈ keepGo e s ps →
      pyStrip l = l ∧ headingMatch l = false ∧ hasDots l = false ∧
        tabToSpace l = l
  | [], _, _, l, h => by simp [keepGo] at h
  | p :: ps, e, s, l, h => by
    by_cases h1 : (headingMatch (pyStrip p) || hasDots (pyStrip p)) = true
    · rw [keepGo_cons_skip e s ps h1] at h
      exact keepGo_good ps e s l h
    · rw [Bool.not_eq_true] at h1
      by_cases h2c : ((pyStrip p).isEmpty && s && e) = true
      · rw [Bool.and_eq_true, Bool.and_eq_true] at h2c
        obtain ⟨⟨h2, hs⟩, he⟩ := h2c
        rw [keepGo_cons_blank e s ps h1 h2 hs he] at h
        exact keepGo_good ps e s l h
      · rw [Bool.not_eq_true] at h2c
        rw [keepGo_cons_keep e s ps h1 h2c] at h
        rcases List.mem_cons.mp h with hl | hl
        · obtain ⟨hhead, hdots⟩ := by
            have := h1
            simp only [Bool.or_eq_false_iff] at this
            exact this
          subst hl
          refine ⟨pyStrip_tab_strip p, ?_, ?_, tabToSpace_idem _⟩
          · rw [headingMatch_tabToSpace]
            exact hhead
          · rw [hasDots_tabToSpace]
            exact hdots
        · exact keepGo_good ps (pyStrip p).isEmpty true l hl

/-- Kept lines contain no newline when the paragraphs contain none. -/
theorem keepGo_noNL :
    ∀ (ps : List (List Char)) (e s : Bool),
      (∀ p ∈ ps, '\n' ∉ p) →
      ∀ l ∈ keepGo e s ps, '\n' ∉ l
  | [], _, _, _, l, h => by simp [keepGo] at h
  | p :: ps, e, s, hps, l, h => by
    have htail : ∀ q ∈ ps, '\n' ∉ q := fun q hq => hps q (List.mem_cons_of_mem _ hq)
    by_cases h1 : (headingMatch (pyStrip p) || hasDots (pyStrip p)) = true
    · rw [keepGo_cons_skip e s ps h1] at h
      exact keepGo_noNL ps e s htail l h
    · rw [Bool.not_eq_true] at h1
      by_cases h2c : ((pyStrip p).isEmpty && s && e) = true
      · rw [Bool.and_eq_true, Bool.and_eq_true] at h2c
        obtain ⟨⟨h2, hs⟩, he⟩ := h2c
        rw [keepGo_cons_blank e s ps h1 h2 hs he] at h
        exact keepGo_noNL ps e s htail l h
      · rw [Bool.not_eq_true] at h2c
        rw [keepGo_cons_keep e s ps h1 h2c] at h
        rcases List.mem_cons.mp h with hl | hl
        · subst hl
          intro hmem
          exact hps p (List.mem_cons_self _ _) (mem_pyStrip (mem_tabToSpace_nl hmem))
        · exact keepGo_noNL ps (pyStrip p).isEmpty true htail l hl

/-- The collapse passes unchanged over a newline-free prefix. -/
theorem replaceNN_append_noNL :
    ∀ (x s : List Char), '\n' ∉ x → replaceNN (x ++ s) = x ++ replaceNN s
  | [], s, _ => rfl
  | c :: x', s, h => by
    have hc : ¬c = '\n' := fun he => h (he ▸ List.mem_cons_self _ _)
    have hx' : '\n' ∉ x' := fun hm => h (List.mem_cons_of_mem _ hm)
    cases hxs : x' ++ s with
    | nil =>
      obtain ⟨hx'e, hse⟩ := List.append_eq_nil.mp hxs
      subst hx'e
      subst hse
      rfl
    | cons d rest =>
      show replaceNN (c :: (x' ++ s)) = c :: (x' ++ replaceNN s)
      rw [hxs]
      show (if c = '\n' ∧ d = '\n' then '\n' :: replaceNN rest
        else c :: replaceNN (d :: rest)) = _
      rw [if_neg (fun hand => hc hand.1), ← hxs,
        replaceNN_append_noNL x' s hx']

/-- The collapse keeps a newline whose successor is not a newline. -/
theorem replaceNN_cons_nl {s : List Char} (h : s.head? ≠ some '\n') :
    replaceNN ('\n' :: s) = '\n' :: replaceNN s := by
  cases s with
  | nil => rfl
  | cons d rest =>
    have hd : ¬d = '\n' := fun he => h (by rw [he]; rfl)
    show (if '\n' = '\n' ∧ d = '\n' then '\n' :: replaceNN rest
      else '\n' :: replaceNN (d :: rest)) = _
    rw [if_neg (fun hand => hd hand.2)]

/-- Unfolding of `joinNL` on a cons. -/
theorem joinNL_cons (l : List Char) (rest : List (List Char)) :
    joinNL (l :: rest) = l ++ '\n' :: joinNL rest := by
  simp [joinNL]

/-- Joining is empty only on the empty line list. -/
theorem joinNL_eq_nil : ∀ {M : List (List Char)}, joinNL M = [] → M = []
  | [], _ => rfl
  | l :: M, h => by
    rw [joinNL_cons] at h
    rcases List.append_eq_nil.mp h with ⟨_, h2⟩
    cases h2

/-- Head of `joinNL` over a leading nonempty line. -/
theorem joinNL_head {d : Char} {l2 : List Char} {rest : List (List Char)} :
    (joinNL ((d :: l2) :: rest)).head? = some d := by
  rw [joinNL_cons]
  rfl

/-- The tail of a no-two-blank kept list is no-two-blank. -/
theorem noTwoEmptyB_tail : ∀ {l : List Char} {r : List (List Char)},
    noTwoEmptyB (l :: r) = true → noTwoEmptyB r = true := by
  intro l r h
  cases r with
  | nil => rfl
  | cons l2 rest =>
    simp only [noTwoEmptyB, Bool.and_eq_true] at h
    exact h.2

/-- Core collapse computation: after a newline, joining kept lines that
are newline-free with no two consecutive blanks collapses every blank
line into the preceding newline. -/
theorem replaceNN_nl_joinNL :
    ∀ (rest : List (List Char)),
      (∀ l ∈ rest, '\n' ∉ l) → noTwoEmptyB rest = true →
      replaceNN ('\n' :: joinNL rest) =
        '\n' :: joinNL (rest.filter (fun l => !l.isEmpty))
  | [], _, _ => rfl
  | (d :: l2') :: rest', hnl, hnt => by
    have hd : ¬d = '\n' := fun he =>
      hnl (d :: l2') (List.mem_cons_self _ _) (he ▸ List.mem_cons_self _ _)
    have hx : '\n' ∉ d :: l2' := hnl (d :: l2') (List.mem_cons_self _ _)
    have hnl' : ∀ l ∈ rest', '\n' ∉ l := fun l hl => hnl l (List.mem_cons_of_mem _ hl)
    have hhead : (((d :: l2') ++ '\n' :: joinNL rest').head? : Option Char) ≠ some '\n' := by
      rw [List.cons_append, List.head?_cons]
      simp [hd]
    rw [joinNL_cons, replaceNN_cons_nl hhead, replaceNN_append_noNL _ _ hx,
      replaceNN_nl_joinNL rest' hnl' (noTwoEmptyB_tail hnt),
      List.filter_cons_of_pos (by simp), joinNL_cons]
  | [] :: [], _, _ => rfl
  | [] :: (d :: l3') :: rest'', hnl, hnt => by
    have hx : '\n' ∉ d :: l3' :=
      hnl (d :: l3') (List.mem_cons_of_mem _ (List.mem_cons_self _ _))
    have hnl'' : ∀ l ∈ rest'', '\n' ∉ l := fun l hl =>
      hnl l (List.mem_cons_of_mem _ (List.mem_cons_of_mem _ hl))
    have hnt'' : noTwoEmptyB rest'' = true := noTwoEmptyB_tail (noTwoEmptyB_tail hnt)
    rw [joinNL_cons, joinNL_cons, List.nil_append]
    rw [show replaceNN ('\n' :: '\n' :: ((d :: l3') ++ '\n' :: joinNL rest'')) =
        '\n' :: replaceNN ((d :: l3') ++ '\n' :: joinNL rest'') from by
      show (if ('\n' : Char) = '\n' ∧ ('\n' : Char) = '\n' then _ else _) = _
      rw [if_pos ⟨rfl, rfl⟩]]
    rw [replaceNN_append_noNL _ _ hx, replaceNN_nl_joinNL rest'' hnl'' hnt'']
    rw [List.filter_cons_of_neg (by simp), List.filter_cons_of_pos (by simp),
      joinNL_cons]
  | [] :: [] :: rest'', _, hnt => by
    exfalso
    simp [noTwoEmptyB] at hnt

/-- The central rendering identity for C7 and C8: on kept lines that are
newline-free with no two consecutive blanks, the final collapse of the
joined lines keeps a single leading newline when the first kept line is
blank and otherwise simply joins the nonempty lines, every interior or
trailing blank line being absorbed into the newline that precedes it. -/
theorem replaceNN_joinNL (L : List (List Char))
    (hnl : ∀ l ∈ L, '\n' ∉ l) (hnt : noTwoEmptyB L = true) :
    replaceNN (joinNL L) =
      (if L.head? = some ([] : List Char) then ['\n'] else []) ++
        joinNL (L.filter (fun l => !l.isEmpty)) := by
  cases L with
  | nil => rfl
  | cons l rest =>
    cases l with
    | nil =>
      rw [joinNL_cons, List.nil_append,
        replaceNN_nl_joinNL rest (fun q hq => hnl q (List.mem_cons_of_mem _ hq))
          (noTwoEmptyB_tail hnt),
        List.filter_cons_of_neg (by simp), List.head?_cons, if_pos rfl]
      rfl
    | cons c l' =>
      have hx : '\n' ∉ c :: l' := hnl (c :: l') (List.mem_cons_self _ _)
      have hne : (some (c :: l') : Option (List Char)) ≠ some [] := by simp
      rw [joinNL_cons, replaceNN_append_noNL _ _ hx,
        replaceNN_nl_joinNL rest (fun q hq => hnl q (List.mem_cons_of_mem _ hq))
          (noTwoEmptyB_tail hnt),
        List.head?_cons, if_neg hne, List.nil_append,
        List.filter_cons_of_pos (by simp), joinNL_cons]

/-- Doubled-newline detection ignores a newline-free prefix. -/
theorem hasNN_append_noNL :
    ∀ (x s : List Char), '\n' ∉ x → hasNN (x ++ s) = hasNN s
  | [], _, _ => rfl
  | c :: x', s, h => by
    have hc : ¬c = '\n' := fun he => h (he ▸ List.mem_cons_self _ _)
    have hx' : '\n' ∉ x' := fun hm => h (List.mem_cons_of_mem _ hm)
    cases hxs : x' ++ s with
    | nil =>
      obtain ⟨hx'e, hse⟩ := List.append_eq_nil.mp hxs
      subst hx'e
      subst hse
      rfl
    | cons d rest =>
      show hasNN (c :: (x' ++ s)) = hasNN s
      rw [hxs]
      show (decide (c = '\n') && decide (d = '\n') || hasNN (d :: rest)) = hasNN s
      rw [← hxs, hasNN_append_noNL x' s hx']
      simp [hc]

/-- A lone newline followed by a newline-free-headed, doubled-free text
has no doubled newline. -/
theorem hasNN_cons_nl {s : List Char} (hh : s.head? ≠ some '\n')
    (hs : hasNN s = false) : hasNN ('\n' :: s) = false := by
  cases s with
  | nil => rfl
  | cons d rest =>
    have hd : ¬d = '\n' := fun he => hh (by rw [he]; rfl)
    show (decide (('\n' : Char) = '\n') && decide (d = '\n') || hasNN (d :: rest)) = false
    simp [hd, hs]

/-- Joining nonempty newline-free lines yields a text with no doubled
newline, starting with a non-newline character. -/
theorem joinNL_nonempty_noNN :
    ∀ (M : List (List Char)), (∀ l ∈ M, l ≠ [] ∧ '\n' ∉ l) →
      hasNN (joinNL M) = false ∧ (joinNL M).head? ≠ some '\n'
  | [], _ => ⟨rfl, by simp [joinNL]⟩
  | l :: M', h => by
    obtain ⟨hne, hnl⟩ := h l (List.mem_cons_self _ _)
    obtain ⟨c, l'', rfl⟩ : ∃ c l'', l = c :: l'' := by
      cases l with
      | nil => exact absurd rfl hne
      | cons c t => exact ⟨c, t, rfl⟩
    have hc : ¬c = '\n' := fun he => hnl (he ▸ List.mem_cons_self _ _)
    obtain ⟨ih1, ih2⟩ := joinNL_nonempty_noNN M'
      (fun q hq => h q (List.mem_cons_of_mem _ hq))
    constructor
    · rw [joinNL_cons, hasNN_append_noNL _ _ hnl]
      exact hasNN_cons_nl ih2 ih1
    · rw [joinNL_cons, List.cons_append, List.head?_cons]
      simp [hc]

/-- C8: for every raw document whose paragraphs contain no newline, the
normalized document contains no two consecutive newlines: an empty
paragraph is dropped whenever the kept output already ends blank, and the
final pass collapses every remaining doubled newline. -/
theorem c8_no_double_newline :
    ∀ paras : List String, (∀ p ∈ paras, '\n' ∉ p.data) →
      hasNN (read_word_doc paras).data = false := by
  intro paras hp
  show hasNN (replaceNN (joinNL (keepGo false false (paras.map String.data)))) = false
  have hnl : ∀ l ∈ keepGo false false (paras.map String.data), '\n' ∉ l :=
    keepGo_noNL (paras.map String.data) false false
      (by
        intro q hq
        obtain ⟨p, hp', rfl⟩ := List.mem_map.mp hq
        exact hp p hp')
  have hnt := keepGo_noTwoEmpty (paras.map String.data) false false
  rw [replaceNN_joinNL _ hnl hnt]
  have hM : ∀ l ∈ (keepGo false false (paras.map String.data)).filter
      (fun l => !l.isEmpty), l ≠ [] ∧ '\n' ∉ l := by
    intro l hl
    obtain ⟨hmem, hcond⟩ := List.mem_filter.mp hl
    refine ⟨?_, hnl l hmem⟩
    intro he
    subst he
    simp at hcond
  obtain ⟨h1, h2⟩ := joinNL_nonempty_noNN _ hM
  by_cases hh : (keepGo false false (paras.map String.data)).head? =
      some ([] : List Char)
  · rw [if_pos hh]
    exact hasNN_cons_nl h2 h1
  · rw [if_neg hh, List.nil_append]
    exact h1

/-- Witness for C8: a concrete document with headings, dot leaders, blank
runs and tabs normalizes without doubled newlines. -/
theorem c8_witness :
    hasNN (read_word_doc
      ["", "", "第一条", "  甲方\t义务  ", "", "", "目录......5", "乙方", ""]).data =
      false :=
  c8_no_double_newline
    ["", "", "第一条", "  甲方\t义务  ", "", "", "目录......5", "乙方", ""]
    (by decide)

/-- The line splitter passes over a newline-free prefix, accumulating it. -/
theorem splitNLGo_append :
    ∀ (x : List Char) (cur s : List Char), '\n' ∉ x →
      splitNLGo cur (x ++ s) = splitNLGo (x.reverse ++ cur) s
  | [], _, _, _ => rfl
  | c :: x', cur, s, h => by
    have hc : ¬c = '\n' := fun he => h (he ▸ List.mem_cons_self _ _)
    have hx' : '\n' ∉ x' := fun hm => h (List.mem_cons_of_mem _ hm)
    show splitNLGo cur (c :: (x' ++ s)) = _
    rw [show splitNLGo cur (c :: (x' ++ s)) = splitNLGo (c :: cur) (x' ++ s) from by
      simp [splitNLGo, hc]]
    rw [splitNLGo_append x' (c :: cur) s hx', List.reverse_cons, List.append_assoc]
    rfl

/-- Splitting the joined nonempty-line rendering recovers the lines. -/
theorem splitNLGo_joinNL :
    ∀ (M : List (List Char)), (∀ l ∈ M, '\n' ∉ l) → M ≠ [] →
      splitNLGo [] (joinNL M) = M
  | [], _, hne => absurd rfl hne
  | l :: M', hnl, _ => by
    have hl : '\n' ∉ l := hnl l (List.mem_cons_self _ _)
    rw [joinNL_cons, splitNLGo_append l [] ('\n' :: joinNL M') hl, List.append_nil]
    rw [show splitNLGo l.reverse ('\n' :: joinNL M') =
        (match joinNL M' with
         | [] => [l.reverse.reverse]
         | _ :: _ => l.reverse.reverse :: splitNLGo [] (joinNL M')) from by
      simp [splitNLGo]]
    cases hM' : M' with
    | nil => simp [joinNL]
    | cons m M'' =>
      subst hM'
      obtain ⟨d, rest, hz⟩ : ∃ d rest, joinNL (m :: M'') = d :: rest := by
        rw [joinNL_cons]
        cases m with
        | nil => exact ⟨'\n', joinNL M'', rfl⟩
        | cons a t => exact ⟨a, t ++ '\n' :: joinNL M'', rfl⟩
      rw [hz]
      show l.reverse.reverse :: splitNLGo [] (d :: rest) = l :: m :: M''
      rw [List.reverse_reverse, ← hz,
        splitNLGo_joinNL (m :: M'') (fun q hq => hnl q (List.mem_cons_of_mem _ hq))
          (List.cons_ne_nil _ _)]

/-- Splitting a joined newline-free line list recovers the lines. -/
theorem splitLines_joinNL (M : List (List Char))
    (hnl : ∀ l ∈ M, '\n' ∉ l) : splitLines (joinNL M) = M := by
  cases M with
  | nil => rfl
  | cons l M' =>
    obtain ⟨d, rest, hz⟩ : ∃ d rest, joinNL (l :: M') = d :: rest := by
      rw [joinNL_cons]
      cases l with
      | nil => exact ⟨'\n', joinNL M', rfl⟩
      | cons a t => exact ⟨a, t ++ '\n' :: joinNL M', rfl⟩
    rw [hz]
    show splitNLGo [] (d :: rest) = l :: M'
    rw [← hz]
    exact splitNLGo_joinNL (l :: M') hnl (List.cons_ne_nil _ _)

/-- Splitting a leading newline followed by joined newline-free
lines yields a blank first line then the lines. -/
theorem splitLines_nl_joinNL (M : List (List Char))
    (hnl : ∀ l ∈ M, '\n' ∉ l) : splitLines ('\n' :: joinNL M) = [] :: M := by
  show splitNLGo [] ('\n' :: joinNL M) = [] :: M
  rw [show splitNLGo [] ('\n' :: joinNL M) =
      (match joinNL M with
       | [] => [List.reverse ([] : List Char)]
       | _ :: _ => List.reverse ([] : List Char) :: splitNLGo [] (joinNL M)) from by
    simp [splitNLGo]]
  cases hM : M with
  | nil => simp [joinNL]
  | cons m M'' =>
    subst hM
    obtain ⟨d, rest, hz⟩ : ∃ d rest, joinNL (m :: M'') = d :: rest := by
      rw [joinNL_cons]
      cases m with
      | nil => exact ⟨'\n', joinNL M'', rfl⟩
      | cons a t => exact ⟨a, t ++ '\n' :: joinNL M'', rfl⟩
    rw [hz]
    show List.reverse ([] : List Char) :: splitNLGo [] (d :: rest) = [] :: m :: M''
    rw [List.reverse_nil, ← hz, splitNLGo_joinNL (m :: M'') hnl (List.cons_ne_nil _ _)]

/-- A list of nonempty lines has no two consecutive blanks. -/
theorem allNonempty_noTwoEmptyB :
    ∀ (M : List (List Char)), (∀ l ∈ M, l.isEmpty = false) →
      noTwoEmptyB M = true
  | [], _ => rfl
  | [_], _ => rfl
  | l1 :: l2 :: rest, h => by
    have h1 := h l1 (List.mem_cons_self _ _)
    show (!(l1.isEmpty && l2.isEmpty) && noTwoEmptyB (l2 :: rest)) = true
    rw [h1, allNonempty_noTwoEmptyB (l2 :: rest)
      (fun q hq => h q (List.mem_cons_of_mem _ hq))]
    rfl

/-- Lines that are already clean pass through the cleaning loop
unchanged. -/
theorem keepGo_fixed :
    ∀ (M : List (List Char)) (e s : Bool),
      (∀ l ∈ M, l ≠ [] ∧ pyStrip l = l ∧ headingMatch l = false ∧
        hasDots l = false ∧ tabToSpace l = l) →
      keepGo e s M = M
  | [], _, _, _ => rfl
  | l :: M', e, s, h => by
    obtain ⟨hne, hstrip, hhead, hdots, htab⟩ := h l (List.mem_cons_self _ _)
    have h1 : (headingMatch (pyStrip l) || hasDots (pyStrip l)) = false := by
      rw [hstrip, hhead, hdots]
      rfl
    have hie : l.isEmpty = false := by
      cases l with
      | nil => exact absurd rfl hne
      | cons a t => rfl
    have h2 : ((pyStrip l).isEmpty && s && e) = false := by
      rw [hstrip, hie]
      rfl
    rw [keepGo_cons_keep e s M' h1 h2, hstrip, htab,
      keepGo_fixed M' l.isEmpty true (fun q hq => h q (List.mem_cons_of_mem _ hq))]

/-- A leading blank line is kept (the output is still empty), and clean
lines after it pass through unchanged. -/
theorem keepGo_blank_head (M : List (List Char))
    (h : ∀ l ∈ M, l ≠ [] ∧ pyStrip l = l ∧ headingMatch l = false ∧
      hasDots l = false ∧ tabToSpace l = l) :
    keepGo false false ([] :: M) = [] :: M := by
  have h1 : (headingMatch (pyStrip ([] : List Char)) ||
      hasDots (pyStrip ([] : List Char))) = false := rfl
  have h2 : ((pyStrip ([] : List Char)).isEmpty && false && false) = false := rfl
  rw [keepGo_cons_keep false false M h1 h2]
  show ([] : List Char) :: keepGo true true M = [] :: M
  rw [keepGo_fixed M true true h]

/-- C7: normalization is idempotent on documents whose paragraphs contain
no line terminators — splitting the normalized output on line terminators
back into a paragraph sequence and normalizing again reproduces the same
text: no further heading or dot-leader lines are dropped and no doubled
blank lines remain to collapse. -/
theorem c7_normalization_idempotent :
    ∀ paras : List String, (∀ p ∈ paras, '\n' ∉ p.data) →
      read_word_doc ((splitLines (read_word_doc paras).data).map String.mk) =
        read_word_doc paras := by
  intro paras hp
  have hnlK : ∀ l ∈ keepGo false false (paras.map String.data), '\n' ∉ l :=
    keepGo_noNL (paras.map String.data) false false
      (by
        intro q hq
        obtain ⟨p, hp', rfl⟩ := List.mem_map.mp hq
        exact hp p hp')
  have hntK := keepGo_noTwoEmpty (paras.map String.data) false false
  have hrender := replaceNN_joinNL _ hnlK hntK
  have hmaps : ∀ L : List (List Char), (L.map String.mk).map String.data = L := by
    intro L
    rw [List.map_map]
    exact List.map_id' L
  have hMne : ∀ l ∈ (keepGo false false (paras.map String.data)).filter
      (fun l => !l.isEmpty), l.isEmpty = false := by
    intro l hl
    have := (List.mem_filter.mp hl).2
    simpa using this
  have hMnl : ∀ l ∈ (keepGo false false (paras.map String.data)).filter
      (fun l => !l.isEmpty), '\n' ∉ l :=
    fun l hl => hnlK l (List.mem_filter.mp hl).1
  have hMgood : ∀ l ∈ (keepGo false false (paras.map String.data)).filter
      (fun l => !l.isEmpty), l ≠ [] ∧ pyStrip l = l ∧ headingMatch l = false ∧
        hasDots l = false ∧ tabToSpace l = l := by
    intro l hl
    obtain ⟨h1, h2, h3, h4⟩ := keepGo_good (paras.map String.data) false false l
      (List.mem_filter.mp hl).1
    refine ⟨?_, h1, h2, h3, h4⟩
    intro he
    subst he
    simp at hMne
    exact absurd (List.mem_filter.mp hl).2 (by simp)
  have hMfix : ((keepGo false false (paras.map String.data)).filter
      (fun l => !l.isEmpty)).filter (fun l => !l.isEmpty) =
      (keepGo false false (paras.map String.data)).filter (fun l => !l.isEmpty) := by
    apply List.filter_eq_self.mpr
    intro l hl
    simp [hMne l hl]
  show String.mk (replaceNN (joinNL (keepGo false false
      (((splitLines (replaceNN (joinNL (keepGo false false
        (paras.map String.data))))).map String.mk).map String.data)))) =
    String.mk (replaceNN (joinNL (keepGo false false (paras.map String.data))))
  apply congrArg String.mk
  rw [hmaps, hrender]
  by_cases hh : (keepGo false false (paras.map String.data)).head? =
      some ([] : List Char)
  · rw [if_pos hh, List.singleton_append, splitLines_nl_joinNL _ hMnl,
      keepGo_blank_head _ hMgood, joinNL_cons, List.nil_append,
      replaceNN_nl_joinNL _ hMnl (allNonempty_noTwoEmptyB _ hMne), hMfix]
  · have hh2 : ((keepGo false false (paras.map String.data)).filter
        (fun l => !l.isEmpty)).head? ≠ some ([] : List Char) := by
      intro h
      cases hM : (keepGo false false (paras.map String.data)).filter
          (fun l => !l.isEmpty) with
      | nil => rw [hM] at h; cases h
      | cons m rest =>
        rw [hM] at h
        have hm : m = [] := by
          cases h
          rfl
        have := hMne m (by rw [hM]; exact List.mem_cons_self _ _)
        rw [hm] at this
        simp at this
    rw [if_neg hh, List.nil_append, splitLines_joinNL _ hMnl,
      keepGo_fixed _ false false hMgood,
      replaceNN_joinNL _ hMnl (allNonempty_noTwoEmptyB _ hMne),
      if_neg hh2, List.nil_append, hMfix]

/-- Witness for C7: re-normalizing the split lines of a concrete
normalized document reproduces it. -/
theorem c7_witness :
    read_word_doc ((splitLines (read_word_doc
        ["", "第一条", "  甲方\t义务  ", "", "", "目录......5", "乙方"]).data).map
      String.mk) =
      read_word_doc ["", "第一条", "  甲方\t义务  ", "", "", "目录......5", "乙方"] :=
  c7_normalization_idempotent
    ["", "第一条", "  甲方\t义务  ", "", "", "目录......5", "乙方"]
    (by decide)
